import Mathlib

/-!
Verification of the ssh-manager tunnel supervisor, SSH config parser and
forward-spec endpoint parser against their natural-language specification.

The Go source is shallowly embedded: Go strings become `List Char` (the inputs
of interest are ASCII, where Go's byte-oriented string operations and Lean's
character lists coincide), Go `int` becomes `Int`, maps become association
lists, and the side-effectful collaborators of the code under analysis
(`net.ParseIP`, `os.UserHomeDir`, process probing via signal 0, `ps`,
`filepath.Match`, the filesystem read by the config parser) become explicit
environment records of functions, so every operation of the supervisor is a
pure function of its inputs and an environment.

Concurrent operations of the supervisor (`Start`, `Stop`, the per-process
watcher, `LoadRuntime`, ...) are embedded as the state transformers their
mutex-protected sections denote, decomposed at the points where the Go code
releases the mutex (notably around the launcher call inside `Start`), so that
statements about intermediate states remain expressible.
-/

namespace SSHM

/-- Go strings, embedded as character lists. -/
abbrev GoStr := List Char

/-- Shorthand for embedding a Lean string literal as a `GoStr`. -/
def str (s : String) : GoStr := s.data

/-! ### Go `strings` / `strconv` primitives used by the code under analysis -/

/-- `unicode.IsSpace` restricted to the scalar values that matter for the
embedded inputs (ASCII whitespace plus NEL and NBSP). -/
def goSpace (c : Char) : Bool :=
  c = ' ' ∨ c = '\t' ∨ c = '\n' ∨ c = (Char.ofNat 11) ∨ c = (Char.ofNat 12) ∨
  c = '\r' ∨ c = (Char.ofNat 0x85) ∨ c = (Char.ofNat 0xA0)

/-- Drop leading characters satisfying `p` (helper for the Go trim family). -/
def dropWhileGo (p : Char → Bool) : GoStr → GoStr
  | [] => []
  | c :: rest => if p c then dropWhileGo p rest else c :: rest

/-- `strings.TrimSpace`. -/
def trimSpaceGo (s : GoStr) : GoStr :=
  ((dropWhileGo goSpace ((dropWhileGo goSpace s).reverse)).reverse)

/-- `strings.Trim` with a cutset (used as `strings.Trim(host, "[]")`). -/
def trimCutset (s : GoStr) (cutset : List Char) : GoStr :=
  ((dropWhileGo (cutset.contains ·) ((dropWhileGo (cutset.contains ·) s).reverse)).reverse)

/-- `strings.Contains s sub`. -/
def containsGo (s sub : GoStr) : Bool := decide (sub <:+: s)

/-- `strings.ContainsAny s chars`. -/
def containsAnyGo (s : GoStr) (chars : List Char) : Bool := s.any (chars.contains ·)

/-- `strings.HasPrefix s pre` (argument order as in Go). -/
def startsWithGo (s pre : GoStr) : Bool := pre.isPrefixOf s

/-- `strings.HasSuffix s suf`. -/
def endsWithGo (s suf : GoStr) : Bool := suf.isSuffixOf s

/-- `strings.IndexAny(s, chars)` as a Go-style index (−1 when absent). -/
def indexAnyGo (s : GoStr) (chars : List Char) : Int :=
  match s.findIdx? (chars.contains ·) with
  | some i => (i : Int)
  | none => -1

/-- `strings.Index(s, sub)` specialised to a single-character needle. -/
def indexCharGo (s : GoStr) (c : Char) : Int :=
  match s.findIdx? (· = c) with
  | some i => (i : Int)
  | none => -1

/-- `strings.LastIndex(s, sub)` specialised to a single-character needle
(all uses in the embedded code search for one-character separators). -/
def lastIndexCharGo (s : GoStr) (c : Char) : Int :=
  match s.reverse.findIdx? (· = c) with
  | some i => (s.length : Int) - 1 - (i : Int)
  | none => -1

/-- Character count, as `strings.Count(s, ":")` for a one-character needle. -/
def countCharGo (s : GoStr) (c : Char) : Nat := s.countP (· = c)

/-- ASCII lowering of one character (`strings.ToLower`; the directives the
parser lowers are ASCII). -/
def toLowerChar (c : Char) : Char :=
  if 'A' ≤ c ∧ c ≤ 'Z' then Char.ofNat (c.toNat + 32) else c

/-- `strings.ToLower` on ASCII input. -/
def toLowerGo (s : GoStr) : GoStr := s.map toLowerChar

/-- `strings.EqualFold` on ASCII input. -/
def eqFoldGo (a b : GoStr) : Bool := toLowerGo a = toLowerGo b

/-- Numeric value of a run of decimal digits. -/
def digitsVal (ds : GoStr) : Int :=
  ds.foldl (fun acc c => 10 * acc + ((c.toNat : Int) - ('0'.toNat : Int))) 0

/-- `strconv.Atoi` (= `ParseInt(s, 10, 64)`): optional sign, decimal digits,
error on empty input, non-digits, or 64-bit overflow. -/
def atoiGo (s : GoStr) : Option Int :=
  let signAndDigits : Int × GoStr :=
    match s with
    | '+' :: r => (1, r)
    | '-' :: r => (-1, r)
    | r => (1, r)
  let sign := signAndDigits.1
  let ds := signAndDigits.2
  if ds = [] then none
  else if ds.all (fun c => '0' ≤ c ∧ c ≤ '9') then
    let v := sign * digitsVal ds
    if v < -(2 ^ 63) ∨ v > 2 ^ 63 - 1 then none else some v
  else none

/-- Decimal rendering of a natural number (`fmt`-style). -/
def natToChars (n : Nat) : GoStr := Nat.toDigits 10 n

/-- Decimal rendering of an integer (`fmt.Sprintf("%d", i)`). -/
def intToChars (i : Int) : GoStr :=
  if i < 0 then '-' :: natToChars i.natAbs else natToChars i.toNat

/-- One fuel-indexed step stack for `strings.Replace(s, old, new, -1)`:
replace non-overlapping occurrences left to right.  The fuel is the length of
`s`; every recursive call strictly shrinks `s`, so `s.length` fuel suffices
(the zero-fuel branch is unreachable from `replaceAllGo`). -/
def replaceFuel (pat rep : GoStr) : Nat → GoStr → GoStr
  | 0, s => s
  | fuel + 1, s =>
    if pat ≠ [] ∧ pat.isPrefixOf s then
      rep ++ replaceFuel pat rep fuel (s.drop pat.length)
    else
      match s with
      | [] => []
      | c :: rest => c :: replaceFuel pat rep fuel rest

/-- `strings.ReplaceAll(s, pat, rep)` for the nonempty patterns the embedded
code uses (`RedactMessage` guards `home != ""`, and `"/.ssh/"` is constant). -/
def replaceAllGo (s pat rep : GoStr) : GoStr := replaceFuel pat rep s.length s

/-- `strings.Fields`: split around runs of whitespace. -/
def fieldsAux : GoStr → GoStr → List GoStr
  | [], cur => if cur = [] then [] else [cur.reverse]
  | c :: rest, cur =>
    if goSpace c then
      if cur = [] then fieldsAux rest [] else cur.reverse :: fieldsAux rest []
    else fieldsAux rest (c :: cur)

/-- `strings.Fields(s)`. -/
def fieldsGo (s : GoStr) : List GoStr := fieldsAux s []

/-- Lexicographic byte order on Go strings (`s < t` for `sort.Strings`). -/
def lexLt : GoStr → GoStr → Bool
  | [], [] => false
  | [], _ :: _ => true
  | _ :: _, [] => false
  | a :: s, b :: t => if a = b then lexLt s t else decide (a < b)

/-- Insertion step for `sort.Strings` (sortedness is all the code relies on). -/
def insertSorted (x : GoStr) : List GoStr → List GoStr
  | [] => [x]
  | y :: ys => if lexLt x y then x :: y :: ys else y :: insertSorted x ys

/-- `sort.Strings`, embedded as insertion sort. -/
def sortStrings : List GoStr → List GoStr
  | [] => []
  | x :: xs => insertSorted x (sortStrings xs)

/-! ### internal/model: shared data types (`src/internal/model/types.go`) -/

/-- `model.ForwardSpec`: one local→remote SSH tunnel mapping. -/
structure ForwardSpec where
  LocalAddr : GoStr
  LocalPort : Int
  RemoteAddr : GoStr
  RemotePort : Int
deriving DecidableEq, Repr

/-- `model.TunnelState`: the closed set of lifecycle states. -/
inductive TunnelState where
  | down
  | starting
  | up
  | error
  | stopping
  | quarantined
deriving DecidableEq, Repr

/-- `model.TunnelRuntime`.  `StartedAt` is a model timestamp (a natural
number, `0` embedding Go's zero `time.Time`). -/
structure TunnelRuntime where
  ID : GoStr
  HostAlias : GoStr
  Local : GoStr
  Remote : GoStr
  Forward : ForwardSpec
  PID : Int
  State : TunnelState
  StartedAt : Nat
  UptimeSec : Int
  LatencyMS : Int
  LastError : GoStr
  StatusMsg : GoStr
deriving DecidableEq, Repr

/-- `model.HostEntry`. -/
structure HostEntry where
  Alias : GoStr
  HostName : GoStr
  User : GoStr
  Port : Int
  IdentityFile : GoStr
  ProxyJump : GoStr
  Forwards : List ForwardSpec
  IsAdHoc : Bool
deriving DecidableEq, Repr

/-! ### internal/util (`src/internal/util/port.go`, `net.go`) -/

/-- `util.MinPort`. -/
def MinPort : Int := 1

/-- `util.MaxPort`. -/
def MaxPort : Int := 65535

/-- `util.ValidatePort`: `none` means the port is valid; `some msg` carries
the error message. -/
def ValidatePort (port : Int) : Option GoStr :=
  if port < MinPort ∨ port > MaxPort then
    some (str "port " ++ intToChars port ++ str " out of range (must be 1-65535)")
  else none

/-- `util.NormalizeAddr`: fall back when the address trims to empty. -/
def NormalizeAddr (addr fallback : GoStr) : GoStr :=
  let a := trimSpaceGo addr
  if a = [] then fallback else a

/-! ### internal/security: error classification (`src/internal/security/errors.go`) -/

/-- Go `error` values flowing through the supervisor: either a
`*security.ClassifiedError` or any other error exposing only `Error()`. -/
inductive GoErr where
  | classified (userSafe debugDetail : GoStr)
  | plain (msg : GoStr)
deriving DecidableEq, Repr

/-- `(*ClassifiedError).Error()` / generic `error.Error()`. -/
def errString : GoErr → GoStr
  | .classified userSafe _ =>
    if trimSpaceGo userSafe = [] then str "operation failed" else userSafe
  | .plain msg => msg

/-- `security.NewClassifiedError`. -/
def NewClassifiedError (userSafe debugDetail : GoStr) : GoErr :=
  .classified userSafe debugDetail

/-- `security.RedactMessage`.  `home` is the result of `os.UserHomeDir()`
(`none` embeds the error case). -/
def RedactMessage (home : Option GoStr) (msg : GoStr) : GoStr :=
  if msg = [] then msg
  else
    let out := match home with
      | some h => if h ≠ [] then replaceAllGo msg h (str "~") else msg
      | none => msg
    if containsGo out (str "/.ssh/") then
      replaceAllGo out (str "/.ssh/") (str "/.ssh/[redacted]/")
    else out

/-- `security.UserMessage` (`errors.As` on the flat error model finds the
classified wrapper exactly when the error is classified). -/
def UserMessage (home : Option GoStr) (err : Option GoErr) (redact : Bool) : GoStr :=
  match err with
  | none => []
  | some (.classified userSafe _) =>
    let msg := if userSafe = [] then str "operation failed" else userSafe
    if redact then RedactMessage home msg else msg
  | some e =>
    if redact then RedactMessage home (errString e) else errString e

/-- `security.DebugMessage`. -/
def DebugMessage : Option GoErr → GoStr
  | none => []
  | some (.classified userSafe debugDetail) =>
    if trimSpaceGo debugDetail ≠ [] then debugDetail
    else errString (.classified userSafe debugDetail)
  | some e => errString e

/-! ### internal/tunnel: the supervisor (`src/internal/tunnel/manager.go`)

The OS-facing collaborators become an environment of pure functions:
`net.ParseIP`-based checks, `os.UserHomeDir`, the signal-0 liveness probe and
the `ps` command-line lookup. -/

/-- Environment of OS facts consulted by the supervisor. -/
structure Env where
  /-- `net.ParseIP(s) != nil`. -/
  isIP : GoStr → Bool
  /-- `ip := net.ParseIP(s); ip != nil && ip.IsUnspecified()`. -/
  isUnspecifiedIP : GoStr → Bool
  /-- `os.UserHomeDir()` (`none` = error). -/
  home : Option GoStr
  /-- signal-0 delivery to a positive pid succeeds. -/
  osAlive : Int → Bool
  /-- raw output of `ps -o command= -p pid` (`none` = command failed). -/
  procCmdRaw : Int → Option GoStr

/-- `processAlive` (signal-0 probe guarded by `pid <= 0`). -/
def processAlive (env : Env) (pid : Int) : Bool :=
  if pid ≤ 0 then false else env.osAlive pid

/-- `processCommand`: trims the `ps` output and fails on empty output. -/
def processCommand (env : Env) (pid : Int) : Option GoStr :=
  match env.procCmdRaw pid with
  | none => none
  | some out =>
    let cmd := trimSpaceGo out
    if cmd = [] then none else some cmd

/-- `isManagedTunnelProcess`: the restored-process signature check. -/
def isManagedTunnelProcess (cmdline : GoStr) (rt : TunnelRuntime) : Bool :=
  let cmdline := trimSpaceGo cmdline
  if ¬ containsGo cmdline (str "ssh") ∨ ¬ containsGo cmdline (str "-N") ∨
      ¬ containsGo cmdline (str "-L") then false
  else if ¬ containsGo cmdline rt.HostAlias then false
  else if ¬ containsGo cmdline rt.Local ∨ ¬ containsGo cmdline rt.Remote then false
  else true

/-- `validateEndpointHost`. -/
def validateEndpointHost (env : Env) (host : GoStr) : Option GoStr :=
  let host := trimSpaceGo host
  if host = [] then some (str "host cannot be empty")
  else if containsAnyGo host (str " \t\r\n") then some (str "host cannot contain whitespace")
  else
    let unwrapped := trimCutset host (str "[]")
    if env.isIP unwrapped then none
    else if eqFoldGo unwrapped (str "localhost") then none
    else if containsAnyGo unwrapped (str "/\\") then
      some (str "host cannot contain path separators")
    else none

/-- `validateForwardSpec`. -/
def validateForwardSpec (env : Env) (fwd : ForwardSpec) : Option GoStr :=
  let localAddr := NormalizeAddr fwd.LocalAddr (str "127.0.0.1")
  let remote := NormalizeAddr fwd.RemoteAddr (str "localhost")
  match validateEndpointHost env localAddr with
  | some e => some (str "invalid local address " ++ localAddr ++ str ": " ++ e)
  | none =>
    match validateEndpointHost env remote with
    | some e => some (str "invalid remote address " ++ remote ++ str ": " ++ e)
    | none => none

/-- `isPublicBindAddr`. -/
def isPublicBindAddr (env : Env) (addr : GoStr) : Bool :=
  let v := trimCutset (trimSpaceGo addr) (str "[]")
  if v = [] then false
  else if v = str "*" then true
  else env.isUnspecifiedIP v

/-- `appconfig.NormalizeBindPolicy`. -/
def NormalizeBindPolicy (policy : GoStr) : GoStr :=
  if policy = str "allow-public" then str "allow-public" else str "loopback-only"

/-- `RuntimeID`: the deterministic tunnel identity. -/
def RuntimeID (hostAlias : GoStr) (fwd : ForwardSpec) : GoStr :=
  hostAlias ++ str "|" ++
  NormalizeAddr fwd.LocalAddr (str "127.0.0.1") ++ str ":" ++ intToChars fwd.LocalPort ++
  str "|" ++
  NormalizeAddr fwd.RemoteAddr (str "localhost") ++ str ":" ++ intToChars fwd.RemotePort

/-! #### The runtime and cancel maps

Go's `map[string]model.TunnelRuntime` becomes an association list with
replace-or-append update; the cancel map only matters through key presence, so
it becomes a key list. -/

/-- Lookup in the runtime map. -/
def findRt : List (GoStr × TunnelRuntime) → GoStr → Option TunnelRuntime
  | [], _ => none
  | (k, v) :: rest, id => if k = id then some v else findRt rest id

/-- `m.runtime[id] = rt`. -/
def setRt : List (GoStr × TunnelRuntime) → GoStr → TunnelRuntime → List (GoStr × TunnelRuntime)
  | [], id, v => [(id, v)]
  | (k, w) :: rest, id, v => if k = id then (id, v) :: rest else (k, w) :: setRt rest id v

/-- `delete(m.runtime, id)` (used only on the cancel map in the source,
shaped for key lists). -/
def delKey (l : List GoStr) (id : GoStr) : List GoStr := l.filter (· ≠ id)

/-- `m.cancel[id] = cancel` (key-set view). -/
def addKey (l : List GoStr) (id : GoStr) : List GoStr :=
  if l.contains id then l else l ++ [id]

/-- `tunnel.Manager`: the mutable supervisor state guarded by its mutex. -/
structure Manager where
  runtime : List (GoStr × TunnelRuntime)
  cancel : List GoStr
  bindPolicy : GoStr
  allowPublicBind : Bool
  redactErrors : Bool
deriving DecidableEq, Repr

/-- `tunnel.NewManager`. -/
def NewManager : Manager :=
  { runtime := [], cancel := [], bindPolicy := str "loopback-only",
    allowPublicBind := false, redactErrors := true }

/-- `SetBindPolicy`. -/
def SetBindPolicy (m : Manager) (policy : GoStr) : Manager :=
  { m with bindPolicy := NormalizeBindPolicy policy }

/-- `SetAllowPublicBind`. -/
def SetAllowPublicBind (m : Manager) (allow : Bool) : Manager :=
  { m with allowPublicBind := allow }

/-- `SetRedactErrors`. -/
def SetRedactErrors (m : Manager) (redact : Bool) : Manager :=
  { m with redactErrors := redact }

/-- `Get`: map lookup plus fresh uptime. -/
def Get (m : Manager) (id : GoStr) (now : Nat) : Option TunnelRuntime :=
  match findRt m.runtime id with
  | none => none
  | some rt =>
    if rt.StartedAt ≠ 0 then some { rt with UptimeSec := (now : Int) - (rt.StartedAt : Int) }
    else some rt

/-! #### Start, decomposed at the mutex boundaries -/

/-- The validations `Start` performs before touching the maps, in source
order: local port, remote port, forward spec, bind policy. -/
def startValidateErr (env : Env) (m : Manager) (fwd : ForwardSpec) : Option GoErr :=
  match ValidatePort fwd.LocalPort with
  | some e => some (.plain (str "invalid local port: " ++ e))
  | none =>
    match ValidatePort fwd.RemotePort with
    | some e => some (.plain (str "invalid remote port: " ++ e))
    | none =>
      match validateForwardSpec env fwd with
      | some e => some (NewClassifiedError (str "invalid forward specification") e)
      | none =>
        if m.bindPolicy = str "loopback-only" ∧ ¬ m.allowPublicBind ∧
            isPublicBindAddr env fwd.LocalAddr then
          some (NewClassifiedError (str "public bind rejected by security policy")
            (str "local bind address requires allow-public override"))
        else none

/-- The fresh record `Start` seeds under the lock before launching. -/
def seedRuntime (host : HostEntry) (fwd : ForwardSpec) (now : Nat) (id : GoStr) : TunnelRuntime :=
  { ID := id, HostAlias := host.Alias, Forward := fwd,
    Local := NormalizeAddr fwd.LocalAddr (str "127.0.0.1") ++ str ":" ++ intToChars fwd.LocalPort,
    Remote := NormalizeAddr fwd.RemoteAddr (str "localhost") ++ str ":" ++ intToChars fwd.RemotePort,
    State := .starting, StartedAt := now,
    PID := 0, UptimeSec := 0, LatencyMS := 0, LastError := [], StatusMsg := [] }

/-- Outcome of the first locked section of `Start`. -/
inductive Phase1 where
  | failed (e : GoErr)
  | existing (rt : TunnelRuntime)
  | proceed (id : GoStr) (rt : TunnelRuntime)
deriving DecidableEq, Repr

/-- Everything `Start` does before calling the launcher: validation, the
idempotent return for an `up` entry, and seeding the `starting` record (the
`defer` consuming the one-shot public-bind override fires on the early-return
paths, so those paths clear it here; the launch paths clear it on return).
`startProceed` is the branch that seeds the `starting` entry and inserts the
cancellation handle. -/
def startProceed (m : Manager) (host : HostEntry) (fwd : ForwardSpec)
    (now : Nat) : Manager × Phase1 :=
  let id := RuntimeID host.Alias fwd
  let rt := seedRuntime host fwd now id
  ({ m with runtime := setRt m.runtime id rt, cancel := addKey m.cancel id },
   .proceed id rt)

/-- Everything `Start` does before calling the launcher (continued): the
branch structure of the first locked section. -/
def startPhase1 (env : Env) (m : Manager) (host : HostEntry) (fwd : ForwardSpec)
    (now : Nat) : Manager × Phase1 :=
  match startValidateErr env m fwd with
  | some e => ({ m with allowPublicBind := false }, .failed e)
  | none =>
    match findRt m.runtime (RuntimeID host.Alias fwd) with
    | some rt =>
      if rt.State = .up then ({ m with allowPublicBind := false }, .existing rt)
      else startProceed m host fwd now
    | none => startProceed m host fwd now

/-- The locked section of `Start` after a failed launch. -/
def startFinishErr (env : Env) (m : Manager) (id : GoStr) (rt : TunnelRuntime)
    (e : GoErr) : Manager × TunnelRuntime :=
  let rt := { rt with State := .error,
                      LastError := UserMessage env.home (some e) m.redactErrors }
  ({ m with runtime := setRt m.runtime id rt, cancel := delKey m.cancel id,
            allowPublicBind := false }, rt)

/-- The locked section of `Start` after a successful launch. -/
def startFinishOk (m : Manager) (id : GoStr) (rt : TunnelRuntime) (pid : Int) :
    Manager × TunnelRuntime :=
  let rt := { rt with PID := pid, State := .up }
  ({ m with runtime := setRt m.runtime id rt, allowPublicBind := false }, rt)

/-- What a completed `Start` call produced. -/
structure StartOutcome where
  mgr : Manager
  result : Except GoErr TunnelRuntime
  /-- whether the launcher was invoked -/
  launched : Bool
  /-- the id a `watchProcess` goroutine was spawned for, if any -/
  watcherFor : Option GoStr
deriving Repr

instance {ε α : Type} [DecidableEq ε] [DecidableEq α] : DecidableEq (Except ε α) := fun a b =>
  match a, b with
  | .ok x, .ok y => decidable_of_iff (x = y) (by simp)
  | .error x, .error y => decidable_of_iff (x = y) (by simp)
  | .ok _, .error _ => isFalse (by simp)
  | .error _, .ok _ => isFalse (by simp)

instance : DecidableEq StartOutcome := fun a b =>
  decidable_of_iff
    (a.mgr = b.mgr ∧ a.result = b.result ∧ a.launched = b.launched ∧
      a.watcherFor = b.watcherFor)
    (by cases a; cases b; simp [StartOutcome.mk.injEq, and_assoc])

/-- `Start`, composed from its locked sections around the launcher call.
`launch` is the launcher's outcome (`.ok pid` or `.error e`); `now` is the
seeding time and `now2` the time of the final `m.Get(id)`. -/
def Start (env : Env) (m : Manager) (host : HostEntry) (fwd : ForwardSpec)
    (now : Nat) (launch : Except GoErr Int) (now2 : Nat) : StartOutcome :=
  match startPhase1 env m host fwd now with
  | (m1, .failed e) => ⟨m1, .error e, false, none⟩
  | (m1, .existing rt) => ⟨m1, .ok rt, false, none⟩
  | (m1, .proceed id rt) =>
    match launch with
    | .error e =>
      let out := startFinishErr env m1 id rt e
      ⟨out.1, .error (NewClassifiedError (str "failed to start tunnel")
        (DebugMessage (some e))), true, none⟩
    | .ok pid =>
      let out := startFinishOk m1 id rt pid
      match Get out.1 id now2 with
      | some r => ⟨out.1, .ok r, true, some id⟩
      | none => ⟨out.1, .error (.plain (str "not found")), true, some id⟩

/-- `watchProcess`: the watcher's locked section after the child exits with
status `exitErr` (`none` = clean exit). -/
def watchProcess (env : Env) (m : Manager) (id : GoStr) (exitErr : Option GoErr) : Manager :=
  match findRt m.runtime id with
  | none => m
  | some rt =>
    let m' :=
      if rt.State ≠ .stopping then
        match exitErr with
        | some e =>
          let rtE := { rt with State := TunnelState.error,
                               LastError := UserMessage env.home (some e) m.redactErrors }
          { m with runtime := setRt m.runtime id rtE }
        | none =>
          let rtD := { rt with State := TunnelState.down }
          { m with runtime := setRt m.runtime id rtD }
      else m
    { m' with cancel := delKey m'.cancel id }

/-- `Stop`: mark `stopping`, cancel/signal (pure no-ops on manager state),
finalize to `down` with the PID cleared. -/
def Stop (m : Manager) (id : GoStr) : Manager × Option GoErr :=
  match findRt m.runtime id with
  | none => (m, some (.plain (str "tunnel not found: " ++ id)))
  | some rt =>
    let m1 := { m with runtime := setRt m.runtime id ({ rt with State := .stopping }) }
    let rt2 := { rt with State := .down, PID := 0 }
    ({ m1 with runtime := setRt m1.runtime id rt2, cancel := delKey m1.cancel id }, none)

/-- The "active" filter of `StopByHost`. -/
def stopByHostActive (hostAlias : GoStr) (kv : GoStr × TunnelRuntime) : Bool :=
  kv.2.HostAlias = hostAlias ∧
    (kv.2.State = .up ∨ kv.2.State = .starting ∨ kv.2.State = .error)

/-- The ids `StopByHost` collects under the lock. -/
def stopByHostIds (m : Manager) (hostAlias : GoStr) : List GoStr :=
  (m.runtime.filter (stopByHostActive hostAlias)).map (·.1)

/-- `StopByHost`: collect matching active ids under the lock, then stop each. -/
def StopByHost (m : Manager) (hostAlias : GoStr) : Manager × Option GoErr :=
  if stopByHostIds m hostAlias = [] then
    (m, some (.plain (str "no active tunnel for host " ++ hostAlias)))
  else ((stopByHostIds m hostAlias).foldl (fun mm id => (Stop mm id).1) m, none)

/-- `StopAll`. -/
def StopAll (m : Manager) : Manager :=
  (m.runtime.map (·.1)).foldl (fun mm id => (Stop mm id).1) m

/-- `Snapshot`: copies with fresh uptime; entries in `up` get the probe's
latency joined in when the probe succeeds in time (`probe` maps a local
endpoint to a measured latency, `none` covering failures and abandoned
probes; probe outcomes never change states). -/
def snapshotEntry (now : Nat) (probe : GoStr → Option Int) (rt0 : TunnelRuntime) : TunnelRuntime :=
  let rt := if rt0.StartedAt ≠ 0 then
      { rt0 with UptimeSec := (now : Int) - (rt0.StartedAt : Int) }
    else rt0
  if rt.State = .up then
    match probe rt.Local with
    | some l => { rt with LatencyMS := l }
    | none => rt
  else rt

/-- `Snapshot` (continued): the copied slice. -/
def Snapshot (m : Manager) (now : Nat) (probe : GoStr → Option Int) : List TunnelRuntime :=
  m.runtime.map (fun kv => snapshotEntry now probe kv.2)

/-- The per-record reconciliation `LoadRuntime` applies to a saved record. -/
def loadRecord (env : Env) (rt : TunnelRuntime) : TunnelRuntime :=
  if rt.PID > 0 ∧ processAlive env rt.PID then
    match processCommand env rt.PID with
    | some cmdline =>
      if isManagedTunnelProcess cmdline rt then rt
      else
        { rt with State := .quarantined,
                  LastError := str "recovered runtime entry was quarantined (process mismatch)",
                  PID := 0 }
    | none =>
      { rt with State := .quarantined,
                LastError := str "recovered runtime entry was quarantined (process mismatch)",
                PID := 0 }
  else
    { rt with State := .down, PID := 0 }

/-- `LoadRuntime` over the decoded array of saved records (the missing-file
and decode-error paths leave the manager untouched). -/
def LoadRuntime (env : Env) (m : Manager) (records : List TunnelRuntime) : Manager :=
  records.foldl
    (fun mm rt => { mm with runtime := setRt mm.runtime rt.ID (loadRecord env rt) }) m

/-! #### CLI forward argument parsing (`ParseForwardArg` and helpers) -/

/-- `net.SplitHostPort` (consulted by `splitAddrPort` for bracketed input). -/
def splitHostPortGo (hostport : GoStr) : Except GoStr (GoStr × GoStr) :=
  let i := lastIndexCharGo hostport ':'
  if i < 0 then .error (str "missing port in address")
  else if startsWithGo hostport (str "[") then
    let endIdx := indexCharGo hostport ']'
    if endIdx < 0 then .error (str "missing ']' in address")
    else if endIdx + 1 = (hostport.length : Int) then .error (str "missing port in address")
    else if endIdx + 1 ≠ i then
      if hostport.get? (endIdx.toNat + 1) = some ':' then
        .error (str "too many colons in address")
      else .error (str "missing port in address")
    else
      let host := (hostport.take endIdx.toNat).drop 1
      if containsGo (hostport.drop 1) (str "[") then .error (str "unexpected '[' in address")
      else if containsGo (hostport.drop (endIdx.toNat + 1)) (str "]") then
        .error (str "unexpected ']' in address")
      else .ok (host, hostport.drop (i.toNat + 1))
  else
    let host := hostport.take i.toNat
    if indexCharGo host ':' ≥ 0 then .error (str "too many colons in address")
    else if containsGo hostport (str "[") then .error (str "unexpected '[' in address")
    else if containsGo hostport (str "]") then .error (str "unexpected ']' in address")
    else .ok (host, hostport.drop (i.toNat + 1))

/-- `parseAddrPortTail`: peel `remoteAddr` and `remotePort` off the right end
of a forward argument, tolerating a bracketed IPv6 remote. -/
def parseAddrPortTail (s : GoStr) : Except GoStr (GoStr × Int × GoStr) :=
  let idx := lastIndexCharGo s ':'
  if idx ≤ 0 ∨ idx = (s.length : Int) - 1 then
    .error (str "forward format must include remote host and remote port")
  else
    match atoiGo (s.drop (idx.toNat + 1)) with
    | none => .error (str "invalid remote port")
    | some port =>
      let left := s.take idx.toNat
      if endsWithGo left (str "]") then
        let start := lastIndexCharGo left '['
        if start = -1 ∨ start = 0 ∨ left.get? (start.toNat - 1) ≠ some ':' then
          .error (str "invalid bracketed IPv6 remote host")
        else
          let addr := (left.take (left.length - 1)).drop (start.toNat + 1)
          let rest := left.take (start.toNat - 1)
          .ok (addr, port, rest)
      else
        let hostSep := lastIndexCharGo left ':'
        if hostSep ≤ 0 ∨ hostSep = (left.length : Int) - 1 then
          .error (str "forward format must be localPort:remoteHost:remotePort or localAddr:localPort:remoteHost:remotePort")
        else
          .ok (left.drop (hostSep.toNat + 1), port, left.take hostSep.toNat)

/-- `splitAddrPort`: split the residual left side into address and port,
rejecting unbracketed IPv6 literals. -/
def splitAddrPort (s : GoStr) : Except GoStr (GoStr × Int) :=
  if startsWithGo s (str "[") then
    match splitHostPortGo s with
    | .error e => .error e
    | .ok (h, p) =>
      match atoiGo p with
      | none => .error (str "invalid port syntax")
      | some port => .ok (h, port)
  else if countCharGo s ':' > 1 then
    .error (str "IPv6 local bind addresses must be bracketed, e.g. [::1]:8080")
  else
    let idx := lastIndexCharGo s ':'
    if idx ≤ 0 ∨ idx = (s.length : Int) - 1 then .error (str "expected host:port")
    else
      match atoiGo (s.drop (idx.toNat + 1)) with
      | none => .error (str "invalid port syntax")
      | some port => .ok (s.take idx.toNat, port)

/-- The left-residue handling of `ParseForwardArg`: a bare local port (local
address defaults later) or `addr:port`. -/
def parseLocalSide (rest : GoStr) : Except GoStr (GoStr × Int) :=
  match atoiGo rest with
  | some lp => .ok ([], lp)
  | none =>
    match splitAddrPort rest with
    | .error e => .error (str "invalid local endpoint: " ++ e)
    | .ok ap => .ok ap

/-- The canonicalized forward `ParseForwardArg` constructs. -/
def mkFwdArg (localAddr : GoStr) (localPort : Int) (remoteAddr : GoStr)
    (remotePort : Int) : ForwardSpec :=
  { LocalAddr := NormalizeAddr localAddr (str "127.0.0.1"), LocalPort := localPort,
    RemoteAddr := NormalizeAddr remoteAddr (str "localhost"), RemotePort := remotePort }

/-- `ParseForwardArg`: parse a CLI `--forward` argument. -/
def ParseForwardArg (env : Env) (s0 : GoStr) : Except GoErr ForwardSpec :=
  if trimSpaceGo s0 = [] then .error (.plain (str "forward cannot be empty"))
  else
    match parseAddrPortTail (trimSpaceGo s0) with
    | .error e => .error (.plain e)
    | .ok (remoteAddr, remotePort, rest) =>
      match parseLocalSide rest with
      | .error e => .error (.plain e)
      | .ok (localAddr, localPort) =>
        match ValidatePort localPort with
        | some e => .error (.plain (str "invalid local port: " ++ e))
        | none =>
          match ValidatePort remotePort with
          | some e => .error (.plain (str "invalid remote port: " ++ e))
          | none =>
            match validateForwardSpec env (mkFwdArg localAddr localPort remoteAddr remotePort) with
            | some e => .error (.plain e)
            | none => .ok (mkFwdArg localAddr localPort remoteAddr remotePort)

/-! ### internal/config: the SSH config parser (`src/internal/config/parser.go`)

The filesystem, `filepath` path algebra and `filepath.Match` become an
environment of pure functions. -/

/-- Result of `os.Open` + line scanning for one path. -/
inductive FileRes where
  | lines (ls : List GoStr)
  | notExist
  | failure (msg : GoStr)

/-- Environment of filesystem facts consulted by the parser. -/
structure PEnv where
  /-- the file at an absolute path, as scanned lines -/
  fs : GoStr → FileRes
  /-- `filepath.Abs` (`none` = error) -/
  absPath : GoStr → Option GoStr
  /-- `filepath.Glob` (`none` = bad pattern) -/
  glob : GoStr → Option (List GoStr)
  /-- `filepath.Match pattern name` (`none` = `ErrBadPattern`) -/
  matchGlob : GoStr → GoStr → Option Bool
  /-- `os.UserHomeDir()` -/
  home : Option GoStr
  /-- `filepath.IsAbs` -/
  isAbs : GoStr → Bool
  /-- `filepath.Dir` -/
  dir : GoStr → GoStr
  /-- `filepath.Join` of two components -/
  joinPath : GoStr → GoStr → GoStr

/-- `expandHome`. -/
def expandHome (env : PEnv) (path : GoStr) : GoStr :=
  if startsWithGo path (str "~/") then
    match env.home with
    | some h => env.joinPath h (path.drop 2)
    | none => path
  else path

/-- `stripInlineComment`'s scan for an unquoted `#`. -/
def stripHashAux : GoStr → Bool → GoStr
  | [], _ => []
  | c :: rest, inQuote =>
    if c = '"' then c :: stripHashAux rest (¬ inQuote)
    else if c = '#' ∧ ¬ inQuote then []
    else c :: stripHashAux rest inQuote

/-- `stripInlineComment`. -/
def stripInlineComment (line : GoStr) : GoStr := trimSpaceGo (stripHashAux line false)

/-- `splitDirective`: key/value split on first whitespace, else on `=`. -/
def splitDirective (line : GoStr) : Option (GoStr × GoStr) :=
  let i := indexAnyGo line (str " \t")
  if i > 0 then
    let key := trimSpaceGo (line.take i.toNat)
    let value := trimSpaceGo (line.drop (i.toNat + 1))
    if key ≠ [] ∧ value ≠ [] then some (key, value) else none
  else
    let j := indexCharGo line '='
    if j > 0 then
      let key := trimSpaceGo (line.take j.toNat)
      let value := trimSpaceGo (line.drop (j.toNat + 1))
      if key ≠ [] ∧ value ≠ [] then some (key, value) else none
    else none

/-- `config.rawBlock`. -/
structure RawBlock where
  patterns : List GoStr
  values : List (GoStr × List GoStr)
  source : GoStr
deriving DecidableEq, Repr

/-- Lookup in a block's directive-value map. -/
def getVals : List (GoStr × List GoStr) → GoStr → List GoStr
  | [], _ => []
  | (k, vs) :: rest, key => if k = key then vs else getVals rest key

/-- `current.values[k] = append(current.values[k], v)`. -/
def appendVal : List (GoStr × List GoStr) → GoStr → GoStr → List (GoStr × List GoStr)
  | [], key, v => [(key, [v])]
  | (k, vs) :: rest, key, v =>
    if k = key then (k, vs ++ [v]) :: rest else (k, vs) :: appendVal rest key v

/-- State threaded through `parseRecursive`'s line loop (warnings, flushed
blocks, the current block, the shared `seen` set). -/
structure LoopSt where
  blocks : List RawBlock
  warnings : List GoStr
  seen : List GoStr
  current : RawBlock
  hasHostDecl : Bool
deriving Repr

/-- Result of `parseRecursive` on one file. -/
inductive ParseOut where
  | ok (blocks : List RawBlock) (warnings : List GoStr) (seen : List GoStr)
  | fail (err : GoStr) (warnings : List GoStr) (seen : List GoStr)
deriving Repr

/-- One iteration of `parseRecursive`'s scanner loop.  `recurse` performs the
recursive parse of an included file (instantiated with `parseRec` at one
less include depth). -/
def processLine (env : PEnv) (recurse : GoStr → List GoStr → ParseOut) (abs : GoStr)
    (st : LoopSt) (lineNo : Nat) (raw : GoStr) : LoopSt :=
  let line := trimSpaceGo raw
  if line = [] ∨ startsWithGo line (str "#") then st
  else
    let line := stripInlineComment line
    if line = [] then st
    else
      match splitDirective line with
      | none =>
        { st with warnings := st.warnings ++
            [abs ++ str ":" ++ natToChars lineNo ++ str " invalid directive"] }
      | some (key, value) =>
        let lowerKey := toLowerGo key
        if lowerKey = str "include" then
          (fieldsGo value).foldl (fun st1 pat =>
            let incPattern := expandHome env pat
            let incPattern :=
              if env.isAbs incPattern then incPattern
              else env.joinPath (env.dir abs) incPattern
            match env.glob incPattern with
            | none =>
              { st1 with warnings := st1.warnings ++
                  [abs ++ str ":" ++ natToChars lineNo ++ str " bad include pattern \"" ++
                    pat ++ str "\""] }
            | some globHits =>
              let st2 :=
                if globHits = [] then
                  { st1 with warnings := st1.warnings ++
                      [abs ++ str ":" ++ natToChars lineNo ++
                        str " include matched nothing: \"" ++ pat ++ str "\""] }
                else st1
              (sortStrings globHits).foldl (fun st3 mfile =>
                match recurse mfile st3.seen with
                | .ok cb cw cseen =>
                  { st3 with blocks := st3.blocks ++ cb,
                             warnings := st3.warnings ++ cw, seen := cseen }
                | .fail ce cw cseen =>
                  { st3 with warnings := (st3.warnings ++ cw) ++
                      [str "include " ++ mfile ++ str " failed: " ++ ce],
                             seen := cseen }) st2) st
        else if lowerKey = str "host" then
          let blocks :=
            if st.hasHostDecl ∨ st.current.values ≠ [] then st.blocks ++ [st.current]
            else st.blocks
          let patterns := fieldsGo value
          if patterns = [] then
            { st with blocks := blocks,
                      warnings := st.warnings ++
                        [abs ++ str ":" ++ natToChars lineNo ++ str " Host missing patterns"],
                      current := ⟨[str "*"], [], abs⟩, hasHostDecl := true }
          else
            { st with blocks := blocks, current := ⟨patterns, [], abs⟩, hasHostDecl := true }
        else
          { st with current :=
              { st.current with values := appendVal st.current.values lowerKey value } }

/-- `parseRecursive`.  The fuel is `17 − depth` (the source rejects
`depth > util.MaxIncludeDepth` with `MaxIncludeDepth = 16`), so fuel `0`
embeds the depth-exceeded error and the root call gets fuel `17`. -/
def parseRec (env : PEnv) : Nat → GoStr → List GoStr → ParseOut
  | 0, path, seen =>
    .fail (str "include depth exceeded at " ++ path ++ str " (max 16)") [] seen
  | fuel + 1, path, seen =>
    match env.absPath path with
    | none => .fail (str "abs failed: " ++ path) [] seen
    | some abs =>
      if seen.contains abs then .ok [] [str "include cycle skipped: " ++ abs] seen
      else
        let seen1 := seen ++ [abs]
        match env.fs abs with
        | .notExist => .ok [] [str "config file not found: " ++ abs] seen1
        | .failure e => .fail (str "open " ++ abs ++ str ": " ++ e) [] seen1
        | .lines ls =>
          let st0 : LoopSt := ⟨[], [], seen1, ⟨[str "*"], [], abs⟩, false⟩
          let stN := ls.enum.foldl
            (fun st p => processLine env (fun q sn => parseRec env fuel q sn) abs st (p.1 + 1) p.2)
            st0
          let blocks :=
            if stN.hasHostDecl ∨ stN.current.values ≠ [] then stN.blocks ++ [stN.current]
            else stN.blocks
          .ok blocks stN.warnings stN.seen

/-- `isConcreteAlias`. -/
def isConcreteAlias (pattern : GoStr) : Bool :=
  if startsWithGo pattern (str "!") then false
  else if containsAnyGo pattern (str "*?") then false
  else pattern ≠ []

/-- `globMatch` (`filepath.Match` through the environment; empty patterns and
bad patterns yield `false`). -/
def globMatch (env : PEnv) (alias0 pattern : GoStr) : Bool :=
  if pattern = [] then false
  else
    match env.matchGlob pattern alias0 with
    | some ok => ok
    | none => false

/-- The pattern scan of `matchesAny` (negated match rejects immediately). -/
def matchesAnyAux (env : PEnv) (alias0 : GoStr) : List GoStr → Bool → Bool
  | [], matched => matched
  | p :: ps, matched =>
    let negated := startsWithGo p (str "!")
    let pat := if negated then p.drop 1 else p
    if ¬ globMatch env alias0 pat then matchesAnyAux env alias0 ps matched
    else if negated then false
    else matchesAnyAux env alias0 ps true

/-- `matchesAny`. -/
def matchesAny (env : PEnv) (alias0 : GoStr) (patterns : List GoStr) : Bool :=
  matchesAnyAux env alias0 patterns false

/-- `parseEndpoint`: one side of a `LocalForward` value. -/
def parseEndpoint (s : GoStr) (isLocal : Bool) : Option (GoStr × Int) :=
  if ¬ containsGo s (str ":") then
    match atoiGo s with
    | none => none
    | some p => if isLocal then some (str "127.0.0.1", p) else some (str "localhost", p)
  else
    let idx := (lastIndexCharGo s ':').toNat
    let addr := s.take idx
    let portStr := s.drop (idx + 1)
    match atoiGo portStr with
    | none => none
    | some p =>
      let addr := if addr = [] then (if isLocal then str "127.0.0.1" else str "localhost") else addr
      some (addr, p)

/-- `parseLocalForward`. -/
def parseLocalForward (v : GoStr) : Option ForwardSpec :=
  match fieldsGo v with
  | [p1, p2] =>
    match parseEndpoint p1 true with
    | none => none
    | some (la, lp) =>
      match parseEndpoint p2 false with
      | none => none
      | some (ra, rp) => some ⟨la, lp, ra, rp⟩
  | _ => none

/-- Directive merge of one matching block into a host entry (`compileHosts`'s
inner loop body). -/
def mergeBlock (env : PEnv) (alias0 : GoStr) (h : HostEntry) (b : RawBlock) : HostEntry :=
  if ¬ matchesAny env alias0 b.patterns then h
  else
    let h := match (getVals b.values (str "hostname")).getLast? with
      | some v => { h with HostName := v }
      | none => h
    let h := match (getVals b.values (str "user")).getLast? with
      | some v => { h with User := v }
      | none => h
    let h := match (getVals b.values (str "port")).getLast? with
      | some v =>
        match atoiGo v with
        | some p => { h with Port := p }
        | none => h
      | none => h
    let h := match (getVals b.values (str "identityfile")).getLast? with
      | some v => { h with IdentityFile := expandHome env v }
      | none => h
    let h := match (getVals b.values (str "proxyjump")).getLast? with
      | some v => { h with ProxyJump := v }
      | none => h
    { h with Forwards := h.Forwards ++
        (getVals b.values (str "localforward")).filterMap parseLocalForward }

/-- Accumulate a concrete alias once (the Go code collects into a set). -/
def dedupAppend (acc : List GoStr) (x : GoStr) : List GoStr :=
  if acc.contains x then acc else acc ++ [x]

/-- Insertion step for the final `sort.Slice` by alias. -/
def insertHost (x : HostEntry) : List HostEntry → List HostEntry
  | [] => [x]
  | y :: ys => if lexLt x.Alias y.Alias then x :: y :: ys else y :: insertHost x ys

/-- The final `sort.Slice(hosts, by Alias)`. -/
def sortHostsByAlias : List HostEntry → List HostEntry
  | [] => []
  | x :: xs => insertHost x (sortHostsByAlias xs)

/-- `compileHosts`. -/
def compileHosts (env : PEnv) (blocks : List RawBlock) : List HostEntry :=
  let aliasSet := blocks.foldl
    (fun acc b => b.patterns.foldl
      (fun acc2 p => if isConcreteAlias p then dedupAppend acc2 p else acc2) acc) []
  let aliases := sortStrings aliasSet
  let hosts := aliases.map (fun alias0 =>
    blocks.foldl (mergeBlock env alias0)
      { Alias := alias0, HostName := alias0, User := [], Port := 22,
        IdentityFile := [], ProxyJump := [], Forwards := [], IsAdHoc := false })
  sortHostsByAlias hosts

/-- `config.ParseResult`. -/
structure ParseResult where
  Hosts : List HostEntry
  Warnings : List GoStr
deriving DecidableEq, Repr

/-- `config.ParseFile`. -/
def ParseFile (env : PEnv) (path : GoStr) : Except GoStr ParseResult :=
  match parseRec env 17 path [] with
  | .ok blocks warnings _ => .ok ⟨compileHosts env blocks, warnings⟩
  | .fail e _ _ => .error e

/-! ### Spec-modelled restart policy (§4.5)

The restart/recover layer of the supervisor is referenced by the repository's
tests (`SetRestartPolicy`, `RestartStats`, `restartAttempts`,
`scheduleRestartReset`, `Recover`, `RecoverByHost` in
`src/internal/tunnel/manager_test.go`) and by the CLI, but its implementation
is not under `src/`; the definitions below model it from the spec. -/

/-- Modelled from the spec: the restart policy configuration of §4.5
("enabled (bool), max-attempts per tunnel, backoff seconds, stable-window
seconds"); the implementing code (`SetRestartPolicy`) is absent from `src/`. -/
structure RestartPolicy where
  enabled : Bool
  maxAttempts : Nat
  backoffSec : Nat
  stableSec : Nat
deriving DecidableEq, Repr

/-- What the watcher decides after an unexpected exit. -/
inductive RestartDecision where
  | ignore
  | quarantine
  | schedule (delaySec : Nat)
deriving DecidableEq, Repr

/-- Modelled from the spec: steps 1–3 of §4.5 — "If not enabled → remain in
error/down.  If current per-tunnel attempt counter ≥ max → transition to
quarantined, record failure stat, emit quarantined, stop.  Otherwise schedule
a delayed restart after backoff."  The implementing watcher code is absent
from `src/`. -/
def consultRestartPolicy (p : RestartPolicy) (attempts : Nat) : RestartDecision :=
  if ¬ p.enabled then .ignore
  else if attempts ≥ p.maxAttempts then .quarantine
  else .schedule p.backoffSec

/-- Modelled from the spec: the per-tunnel restart statistics of §4.5
("attempts, successes, failures — per tunnel id, monotonic"). -/
structure RestartStats where
  attempts : Nat
  successes : Nat
  failures : Nat
deriving DecidableEq, Repr

/-- Modelled from the spec: the observable state of one tunnel under the
restart policy — its entry state, the per-tunnel attempt counter, its
statistics, and how often the launcher has been invoked for it. -/
structure RPState where
  entryState : TunnelState
  attemptCounter : Nat
  stats : RestartStats
  launches : Nat
deriving DecidableEq, Repr

/-- Modelled from the spec: the watcher/restart loop of §4.5 driven by a
launcher whose tunnel process always fails — every launch succeeds in
spawning (one more launcher invocation, a success/attempt stat on scheduled
fires) and the process immediately exits with an error, upon which the
watcher consults the policy again.  The fuel bounds the number of exits
handled; `maxAttempts + 1` exits reach quarantine from a zero counter. -/
def failLoop (p : RestartPolicy) : Nat → RPState → RPState
  | 0, s => s
  | fuel + 1, s =>
    match consultRestartPolicy p s.attemptCounter with
    | .ignore => { s with entryState := .error }
    | .quarantine =>
      { s with entryState := .quarantined,
               stats := { s.stats with failures := s.stats.failures + 1 } }
    | .schedule _ =>
      failLoop p fuel
        { s with entryState := .up,
                 attemptCounter := s.attemptCounter + 1,
                 stats := { s.stats with attempts := s.stats.attempts + 1,
                                         successes := s.stats.successes + 1 },
                 launches := s.launches + 1 }

/-- Modelled from the spec: scenario 6 of §8 — initial `Start` launches once
(the entry is `up`, counter 0), then the always-failing process exits
repeatedly until the policy quarantines the entry. -/
def runFailingScenario (p : RestartPolicy) : RPState :=
  failLoop p (p.maxAttempts + 1)
    { entryState := .up, attemptCounter := 0, stats := ⟨0, 0, 0⟩, launches := 1 }

/-- Modelled from the spec: `Recover(id)` "applies only to entries in
`quarantined`; clears quarantine, resets restart counter, then Starts"
(§4.3); its implementation is absent from `src/` (only tests and CLI callers
appear there). -/
def Recover (env : Env) (m : Manager) (id : GoStr) (host : HostEntry)
    (launch : Except GoErr Int) (now now2 : Nat) : Except GoErr StartOutcome :=
  match findRt m.runtime id with
  | none => .error (.plain (str "not found"))
  | some rt =>
    if rt.State = .quarantined then .ok (Start env m host rt.Forward now launch now2)
    else .error (.plain (str "tunnel is not quarantined"))

/-! ### Completed supervisor operations, as one inductive -/

/-- A completed supervisor operation (the mutations of the runtime and cancel
maps the source performs between a public call's entry and return, or one
watcher wake-up). -/
inductive MgrOp where
  | startOp (host : HostEntry) (fwd : ForwardSpec) (now : Nat)
      (launch : Except GoErr Int) (now2 : Nat)
  | stopOp (id : GoStr)
  | stopByHostOp (hostAlias : GoStr)
  | stopAllOp
  | watchExitOp (id : GoStr) (exitErr : Option GoErr)
  | loadRuntimeOp (records : List TunnelRuntime)

/-- The manager state a completed operation leaves behind. -/
def applyOp (env : Env) (m : Manager) : MgrOp → Manager
  | .startOp host fwd now launch now2 => (Start env m host fwd now launch now2).mgr
  | .stopOp id => (Stop m id).1
  | .stopByHostOp hostAlias => (StopByHost m hostAlias).1
  | .stopAllOp => StopAll m
  | .watchExitOp id exitErr => watchProcess env m id exitErr
  | .loadRuntimeOp records => LoadRuntime env m records

/-- The per-entry relation between PID and state that the code actually
maintains: a quarantined entry has PID 0, and an entry holding a nonzero PID
is `up`, `error` or `down` (the watcher keeps the exited process's PID while
moving the state to `error`/`down`). -/
def EntryInv (rt : TunnelRuntime) : Prop :=
  (rt.State = .quarantined → rt.PID = 0) ∧
  (rt.PID ≠ 0 → rt.State = .up ∨ rt.State = .error ∨ rt.State = .down)

instance (rt : TunnelRuntime) : Decidable (EntryInv rt) := by
  unfold EntryInv; infer_instance

/-- The invariant over the whole runtime map (over every association-list
entry, so it also covers the slices `Snapshot` copies out). -/
def MgrInv (m : Manager) : Prop :=
  ∀ kv ∈ m.runtime, EntryInv kv.2

instance (m : Manager) : Decidable (MgrInv m) := by
  unfold MgrInv
  exact List.decidableBAll _ _

/-- Key uniqueness of the runtime association list (Go maps cannot hold a
key twice; every reachable embedded state keeps keys unique). -/
def KeysUnique (m : Manager) : Prop := (m.runtime.map (·.1)).Nodup

instance (m : Manager) : Decidable (KeysUnique m) := by
  unfold KeysUnique
  infer_instance

/-! ### Helper predicates for the parser warnings contract -/

/-- A line the scanner warns about: it survives trimming and comment
stripping but fails `splitDirective`. -/
def offendingLine (raw : GoStr) : Bool :=
  let line := trimSpaceGo raw
  if line = [] ∨ startsWithGo line (str "#") then false
  else
    let line2 := stripInlineComment line
    if line2 = [] then false else (splitDirective line2).isNone

/-- Whether a line parses as a directive whose lowered key is `k`. -/
def lineKeyIs (raw : GoStr) (k : GoStr) : Bool :=
  let line := trimSpaceGo raw
  if line = [] ∨ startsWithGo line (str "#") then false
  else
    match splitDirective (stripInlineComment line) with
    | some (key, _) => toLowerGo key = k
    | none => false

/-- A line that is not an `Include` directive (single-file parsing). -/
def noIncludeLine (raw : GoStr) : Bool := ¬ lineKeyIs raw (str "include")

/-- The warning the scanner emits for a malformed line. -/
def invalidDirectiveWarning (abs : GoStr) (lineNo : Nat) : GoStr :=
  abs ++ str ":" ++ natToChars lineNo ++ str " invalid directive"

/-- Exactly one warning per offending line, in file order. -/
def warningsSpec (abs : GoStr) (ls : List GoStr) : List GoStr :=
  ls.enum.filterMap (fun p =>
    if offendingLine p.2 then some (invalidDirectiveWarning abs (p.1 + 1)) else none)

/-- The warning-independent portion of the scanner state. -/
def coreOf (st : LoopSt) : List RawBlock × List GoStr × RawBlock × Bool :=
  (st.blocks, st.seen, st.current, st.hasHostDecl)

/-! ### Concrete fixtures for witnesses and counterexamples -/

/-- An environment whose OS facts are all trivial. -/
def envTriv : Env :=
  { isIP := fun _ => false, isUnspecifiedIP := fun _ => false, home := none,
    osAlive := fun _ => false, procCmdRaw := fun _ => none }

/-- An environment recognising `0.0.0.0` as an unspecified IP. -/
def envPub : Env :=
  { isIP := fun s => s = str "0.0.0.0" ∨ s = str "127.0.0.1",
    isUnspecifiedIP := fun s => s = str "0.0.0.0", home := none,
    osAlive := fun _ => false, procCmdRaw := fun _ => none }

/-- A running `up` entry used by the C1 counterexample. -/
def rtUpC1 : TunnelRuntime :=
  { ID := str "api|127.0.0.1:9000|localhost:80", HostAlias := str "api",
    Local := str "127.0.0.1:9000", Remote := str "localhost:80",
    Forward := ⟨str "127.0.0.1", 9000, str "localhost", 80⟩,
    PID := 7, State := .up, StartedAt := 5, UptimeSec := 0, LatencyMS := 0,
    LastError := [], StatusMsg := [] }

/-- A manager holding `rtUpC1`. -/
def mC1 : Manager := { NewManager with runtime := [(rtUpC1.ID, rtUpC1)] }

/-- A quarantined entry used by the C3 counterexample. -/
def rtQuarC3 : TunnelRuntime :=
  { ID := str "api|127.0.0.1:9515|localhost:80", HostAlias := str "api",
    Local := str "127.0.0.1:9515", Remote := str "localhost:80",
    Forward := ⟨str "127.0.0.1", 9515, str "localhost", 80⟩,
    PID := 0, State := .quarantined, StartedAt := 0, UptimeSec := 0, LatencyMS := 0,
    LastError := [], StatusMsg := [] }

/-- A manager holding `rtQuarC3`. -/
def mC3 : Manager := { NewManager with runtime := [(rtQuarC3.ID, rtQuarC3)] }

/-- The public-bind forward of the C5 counterexample. -/
def fwdPub : ForwardSpec := ⟨str "0.0.0.0", 8080, str "localhost", 80⟩

/-- Its host. -/
def hostPub : HostEntry :=
  ⟨str "h", str "h", [], 22, [], [], [fwdPub], false⟩

/-- An `up` entry for `fwdPub`, as a consumed one-shot override leaves it. -/
def rtUpPub : TunnelRuntime :=
  { ID := str "h|0.0.0.0:8080|localhost:80", HostAlias := str "h",
    Local := str "0.0.0.0:8080", Remote := str "localhost:80",
    Forward := fwdPub, PID := 9, State := .up, StartedAt := 3, UptimeSec := 0,
    LatencyMS := 0, LastError := [], StatusMsg := [] }

/-- A manager holding `rtUpPub` under the default loopback-only policy with
the one-shot override already consumed. -/
def mC5 : Manager := { NewManager with runtime := [(rtUpPub.ID, rtUpPub)] }

/-- A host/forward pair whose validation passes under `envPub`. -/
def fwdLoop : ForwardSpec := ⟨str "127.0.0.1", 9000, str "localhost", 80⟩

/-- Its host. -/
def hostLoop : HostEntry := ⟨str "api", str "api", [], 22, [], [], [fwdLoop], false⟩

/-- An `up` entry for `fwdLoop` (C5 witness). -/
def rtUpLoop : TunnelRuntime :=
  { ID := str "api|127.0.0.1:9000|localhost:80", HostAlias := str "api",
    Local := str "127.0.0.1:9000", Remote := str "localhost:80",
    Forward := fwdLoop, PID := 11, State := .up, StartedAt := 2, UptimeSec := 0,
    LatencyMS := 0, LastError := [], StatusMsg := [] }

/-- A manager holding `rtUpLoop`. -/
def mC5w : Manager := { NewManager with runtime := [(rtUpLoop.ID, rtUpLoop)] }

/-- A saved record whose process is alive and matches the managed-tunnel
signature (C4 witness fixture). -/
def rtSavedC4 : TunnelRuntime :=
  { ID := str "prod|127.0.0.1:15432|localhost:5432", HostAlias := str "prod",
    Local := str "127.0.0.1:15432", Remote := str "localhost:5432",
    Forward := ⟨str "127.0.0.1", 15432, str "localhost", 5432⟩,
    PID := 321, State := .up, StartedAt := 0, UptimeSec := 4, LatencyMS := 2,
    LastError := [], StatusMsg := [] }

/-- An environment where pid 321 is alive and runs a matching ssh tunnel
command line. -/
def envC4 : Env :=
  { isIP := fun _ => false, isUnspecifiedIP := fun _ => false, home := none,
    osAlive := fun pid => pid = 321,
    procCmdRaw := fun pid =>
      if pid = 321 then
        some (str "ssh -N -L 127.0.0.1:15432:localhost:5432 prod")
      else none }

/-- The same record with the PID of an unrelated live process (`sleep 30`),
the quarantine scenario of the repository's own test. -/
def envC4sleep : Env :=
  { isIP := fun _ => false, isUnspecifiedIP := fun _ => false, home := none,
    osAlive := fun pid => pid = 321,
    procCmdRaw := fun pid => if pid = 321 then some (str "sleep 30") else none }

/-- Parser environment for the concrete config-parser counterexamples:
an in-memory file system with identity path algebra and a literal glob
matcher (faithful to `filepath.Match` on the literal patterns these
fixtures contain). -/
def penvOf (files : List (GoStr × List GoStr)) : PEnv :=
  { fs := fun p =>
      match files.find? (fun kv => kv.1 = p) with
      | some kv => .lines kv.2
      | none => .notExist,
    absPath := fun p => some p,
    glob := fun p => some [p],
    matchGlob := fun pat name => some (pat = name),
    home := some (str "/home/u"),
    isAbs := fun _ => true,
    dir := fun _ => str "/d",
    joinPath := fun a b => a ++ str "/" ++ b }

/-- Config with an unbracketed-IPv6 `LocalForward` (the repository's own
`TestParseFile_LocalForwardRejectsUnbracketedIPv6` input). -/
def cfgIPv6 : List GoStr :=
  [str "Host db", str "  HostName db.internal",
   str "  LocalForward ::1:8080 localhost:5432"]

/-- Parser environment serving `cfgIPv6` at path `cfg`. -/
def penvIPv6 : PEnv := penvOf [(str "cfg", cfgIPv6)]

/-- The host entry the parser actually produces from `cfgIPv6`: the
unbracketed IPv6 forward is accepted, not skipped. -/
def dbHostIPv6 : HostEntry :=
  { Alias := str "db", HostName := str "db.internal", User := [], Port := 22,
    IdentityFile := [], ProxyJump := [],
    Forwards := [⟨str "::1", 8080, str "localhost", 5432⟩], IsAdHoc := false }

/-- Config with a well-formed `LocalForward` line carrying an invalid value. -/
def cfgBadFwd : List GoStr :=
  [str "Host db", str "  LocalForward bogus localhost:80"]

/-- Parser environment serving `cfgBadFwd` at path `cfg`. -/
def penvBadFwd : PEnv := penvOf [(str "cfg", cfgBadFwd)]

/-- The effect of one non-`Include` scanner line on the warning-independent
state components (blocks, seen, current block, host-declared flag); the
scanner loop is proved equal to this plus pure warning accumulation. -/
def stepCore (abs : GoStr) (c : List RawBlock × List GoStr × RawBlock × Bool)
    (raw : GoStr) : List RawBlock × List GoStr × RawBlock × Bool :=
  let line := trimSpaceGo raw
  if line = [] ∨ startsWithGo line (str "#") then c
  else
    let line2 := stripInlineComment line
    if line2 = [] then c
    else
      match splitDirective line2 with
      | none => c
      | some (key, value) =>
        let lowerKey := toLowerGo key
        if lowerKey = str "include" then c
        else if lowerKey = str "host" then
          (if c.2.2.2 ∨ c.2.2.1.values ≠ [] then c.1 ++ [c.2.2.1] else c.1,
           c.2.1, ⟨fieldsGo value, [], abs⟩, true)
        else
          (c.1, c.2.1,
           { c.2.2.1 with values := appendVal c.2.2.1.values lowerKey value }, c.2.2.2)

/-- `warningsSpec` with an index offset (for the scanner-loop induction). -/
def warningsSpecFrom (abs : GoStr) (k : Nat) (ls : List GoStr) : List GoStr :=
  (List.enumFrom k ls).filterMap (fun p =>
    if offendingLine p.2 then some (invalidDirectiveWarning abs (p.1 + 1)) else none)

/-- The final block flush of `parseRecursive` on the core components. -/
def flushCore (c : List RawBlock × List GoStr × RawBlock × Bool) : List RawBlock :=
  if c.2.2.2 ∨ c.2.2.1.values ≠ [] then c.1 ++ [c.2.2.1] else c.1

/-- Witness config for the parser warnings contract: an offending line
(`???`) between valid directives. -/
def cfgC8 : List GoStr :=
  [str "Host a", str "  HostName x", str "???", str "  Port 2222"]

/-- Parser environment serving `cfgC8` at path `cfg`. -/
def penvC8 : PEnv := penvOf [(str "cfg", cfgC8)]

/-- The same environment with the offending line filtered out. -/
def penvC8f : PEnv := penvOf [(str "cfg", cfgC8.filter (fun l => !offendingLine l))]

/-- An environment whose home directory adversarially contains a tilde. -/
def envC9 : Env :=
  { isIP := fun _ => false, isUnspecifiedIP := fun _ => false,
    home := some (str "/h/~y"), osAlive := fun _ => false,
    procCmdRaw := fun _ => none }

/-- A launcher failure whose message embeds the home path twice over. -/
def eC9 : GoErr := .plain (str "/h//h/~yy")

/-- The record a failed `Start` stores under `envC9`: its `LastError` is the
home path itself, reintroduced by the redaction `ReplaceAll`. -/
def rtC9 : TunnelRuntime :=
  { ID := str "api|127.0.0.1:9000|localhost:80", HostAlias := str "api",
    Local := str "127.0.0.1:9000", Remote := str "localhost:80",
    Forward := fwdLoop, PID := 0, State := .error, StartedAt := 1,
    UptimeSec := 0, LatencyMS := 0, LastError := str "/h/~y", StatusMsg := [] }

/-! ## Shared lemmas -/

theorem findRt_setRt (l : List (GoStr × TunnelRuntime)) (id : GoStr) (v : TunnelRuntime) :
    findRt (setRt l id v) id = some v := by
  induction l with
  | nil => simp [setRt, findRt]
  | cons kv rest ih =>
    by_cases h : kv.1 = id
    · simp [setRt, findRt, h]
    · rcases kv with ⟨k, w⟩
      simp only [] at h
      simp [setRt, findRt, h, ih]

theorem findRt_setRt_ne (l : List (GoStr × TunnelRuntime)) (id id' : GoStr)
    (v : TunnelRuntime) (h : id' ≠ id) :
    findRt (setRt l id v) id' = findRt l id' := by
  induction l with
  | nil => simp [setRt, findRt, Ne.symm h]
  | cons kv rest ih =>
    rcases kv with ⟨k, w⟩
    by_cases hk : k = id
    · simp [setRt, findRt, hk, Ne.symm h]
    · simp only [setRt, findRt, if_neg hk]
      by_cases hk2 : k = id'
      · simp [findRt, hk2]
      · simp [findRt, hk2, ih]

theorem mem_setRt {kv : GoStr × TunnelRuntime} {l : List (GoStr × TunnelRuntime)}
    {id : GoStr} {v : TunnelRuntime} (h : kv ∈ setRt l id v) :
    kv = (id, v) ∨ kv ∈ l := by
  induction l with
  | nil => simpa [setRt] using h
  | cons kw rest ih =>
    rcases kw with ⟨k, w⟩
    by_cases hk : k = id
    · simp only [setRt, if_pos hk] at h
      rcases List.mem_cons.mp h with h1 | h1
      · exact Or.inl h1
      · exact Or.inr (List.mem_cons_of_mem _ h1)
    · simp only [setRt, if_neg hk] at h
      rcases List.mem_cons.mp h with h1 | h1
      · exact Or.inr (h1 ▸ List.mem_cons_self _ _)
      · rcases ih h1 with h2 | h2
        · exact Or.inl h2
        · exact Or.inr (List.mem_cons_of_mem _ h2)

theorem findRt_mem {l : List (GoStr × TunnelRuntime)} {id : GoStr} {rt : TunnelRuntime}
    (h : findRt l id = some rt) : (id, rt) ∈ l := by
  induction l with
  | nil => simp [findRt] at h
  | cons kv rest ih =>
    rcases kv with ⟨k, w⟩
    by_cases hk : k = id
    · simp only [findRt, if_pos hk] at h
      subst hk
      cases h
      exact List.mem_cons_self _ _
    · simp only [findRt, if_neg hk] at h
      exact List.mem_cons_of_mem _ (ih h)

theorem startPhase1_failed_apb {env : Env} {m : Manager} {host : HostEntry}
    {fwd : ForwardSpec} {now : Nat} {m1 : Manager} {e : GoErr}
    (h : startPhase1 env m host fwd now = (m1, .failed e)) :
    m1 = { m with allowPublicBind := false } := by
  unfold startPhase1 at h
  split at h
  · rw [Prod.mk.injEq] at h
    exact h.1.symm
  · split at h
    · split at h
      · rw [Prod.mk.injEq] at h
        exact h.1.symm
      · simp [startProceed, Prod.mk.injEq] at h
    · simp [startProceed, Prod.mk.injEq] at h

theorem startPhase1_existing_apb {env : Env} {m : Manager} {host : HostEntry}
    {fwd : ForwardSpec} {now : Nat} {m1 : Manager} {rt : TunnelRuntime}
    (h : startPhase1 env m host fwd now = (m1, .existing rt)) :
    m1 = { m with allowPublicBind := false } := by
  unfold startPhase1 at h
  split at h
  · simp at h
  · split at h
    · split at h
      · rw [Prod.mk.injEq] at h
        exact h.1.symm
      · simp [startProceed, Prod.mk.injEq] at h
    · simp [startProceed, Prod.mk.injEq] at h

theorem startPhase1_proceed_eq {env : Env} {m : Manager} {host : HostEntry}
    {fwd : ForwardSpec} {now : Nat} {m1 : Manager} {id : GoStr} {rt : TunnelRuntime}
    (h : startPhase1 env m host fwd now = (m1, .proceed id rt)) :
    id = RuntimeID host.Alias fwd ∧ rt = seedRuntime host fwd now id ∧
      m1 = { m with runtime := setRt m.runtime id rt, cancel := addKey m.cancel id } := by
  unfold startPhase1 at h
  split at h
  · simp at h
  · split at h
    · split at h
      · simp at h
      · simp only [startProceed, Prod.mk.injEq] at h
        rcases h with ⟨h1, h2⟩
        cases h2
        exact ⟨rfl, rfl, h1.symm⟩
    · simp only [startProceed, Prod.mk.injEq] at h
      rcases h with ⟨h1, h2⟩
      cases h2
      exact ⟨rfl, rfl, h1.symm⟩

/-! ## C6 — unbracketed IPv6 in `LocalForward` -/

/-- C6: the claim says an unbracketed IPv6 endpoint in a `LocalForward`
directive is rejected with no `ForwardSpec` added.  The code accepts it:
`parseEndpoint` splits at the last colon with no bracket or colon-count
check, so `::1:8080` parses as address `::1` with port `8080`, and the
forward is added to the compiled host entry.  This contradicts the
repository's own test `TestParseFile_LocalForwardRejectsUnbracketedIPv6`
(which asserts `Forwards` stays empty on this very input), so the claim is
right and the code is wrong. -/
theorem C6_unbracketed_ipv6_localforward_accepted :
    parseLocalForward (str "::1:8080 localhost:5432") =
      some ⟨str "::1", 8080, str "localhost", 5432⟩ ∧
    ParseFile penvIPv6 (str "cfg") = .ok ⟨[dbHostIPv6], []⟩ ∧
    dbHostIPv6.Forwards ≠ [] := by
  refine ⟨by decide, by decide, by decide⟩

/-! ## C7 — port range validation at the parser boundaries -/

/-- C7 counterexample: the claim says no `ForwardSpec` with an out-of-range
port is ever produced by the forward-spec parsers; the `LocalForward`
endpoint parser performs no range validation and produces one with local
port `0` and remote port `65536`. -/
theorem C7_counterexample_localforward_out_of_range :
    parseLocalForward (str "0 localhost:65536") =
      some ⟨str "127.0.0.1", 0, str "localhost", 65536⟩ ∧
    ValidatePort 0 ≠ none ∧ ValidatePort 65536 ≠ none := by decide

/-- C7 as amended: `ValidatePort` accepts exactly 1–65535 (so 0 and 65536
are rejected and 1 and 65535 accepted), and the CLI forward-argument parser
`ParseForwardArg` only ever returns forwards whose two ports pass
`ValidatePort`; the `LocalForward` endpoint parser, by contrast, performs no
range validation (see the counterexample). -/
theorem C7_port_boundaries :
    (∀ p : Int, ValidatePort p = none ↔ (1 ≤ p ∧ p ≤ 65535)) ∧
    (∀ (env : Env) (s : GoStr) (fwd : ForwardSpec),
      ParseForwardArg env s = .ok fwd →
        ValidatePort fwd.LocalPort = none ∧ ValidatePort fwd.RemotePort = none) ∧
    (ParseForwardArg envTriv (str "0:localhost:80")).isOk = false ∧
    (ParseForwardArg envTriv (str "65536:localhost:80")).isOk = false ∧
    (ParseForwardArg envTriv (str "8080:localhost:0")).isOk = false ∧
    (ParseForwardArg envTriv (str "8080:localhost:65536")).isOk = false ∧
    ParseForwardArg envTriv (str "1:localhost:65535") =
      .ok ⟨str "127.0.0.1", 1, str "localhost", 65535⟩ ∧
    ParseForwardArg envTriv (str "65535:localhost:1") =
      .ok ⟨str "127.0.0.1", 65535, str "localhost", 1⟩ := by
  refine ⟨?_, ?_, by decide, by decide, by decide, by decide, by decide, by decide⟩
  · intro p
    simp only [ValidatePort, MinPort, MaxPort]
    split <;> rename_i h
    · constructor
      · intro hc
        simp at hc
      · intro hc
        omega
    · simp only [true_iff]
      omega
  · intro env s fwd h
    unfold ParseForwardArg at h
    repeat' split at h
    all_goals cases h
    simp_all [mkFwdArg]

/-! ## C10 — the one-shot public-bind override is consumed by every Start -/

/-- C10: every `Start` call — validation failures, the idempotent return of
an existing `up` entry, failed launches and successful launches alike —
leaves `allowPublicBind` false on return (the `defer` at the top of `Start`),
so a single override never survives into a second `Start` invocation. -/
theorem C10_override_consumed_by_every_start (env : Env) (m : Manager)
    (host : HostEntry) (fwd : ForwardSpec) (now : Nat) (launch : Except GoErr Int)
    (now2 : Nat) :
    (Start env m host fwd now launch now2).mgr.allowPublicBind = false := by
  unfold Start
  rcases hph : startPhase1 env m host fwd now with ⟨m1, ph⟩
  cases ph with
  | failed e =>
    have := startPhase1_failed_apb hph
    subst this
    simp
  | existing rt =>
    have := startPhase1_existing_apb hph
    subst this
    simp
  | proceed id rt =>
    cases launch with
    | error e => simp [startFinishErr]
    | ok pid =>
      simp only [startFinishOk]
      split <;> simp

/-- C7 witness: the general part of `C7_port_boundaries` applied to the
concrete accepted input `1:localhost:65535`. -/
theorem C7_port_boundaries_witness :
    ValidatePort (1 : Int) = none ∧ ValidatePort (65535 : Int) = none :=
  C7_port_boundaries.2.1 envTriv (str "1:localhost:65535")
    ⟨str "127.0.0.1", 1, str "localhost", 65535⟩ (by decide)

/-! ## C5 — Start idempotence on an existing `up` entry -/

/-- C5 counterexample: the claim quantifies over every host/forward whose
`TunnelID` has an `up` entry, but `Start` validates before the idempotency
check.  Here the entry is `up` (it was started under the one-shot
public-bind override), the override has been consumed, and the second
`Start` returns a bind-policy error instead of the existing record. -/
theorem C5_counterexample_validation_precedes_idempotency :
    findRt mC5.runtime (RuntimeID hostPub.Alias fwdPub) = some rtUpPub ∧
    rtUpPub.State = TunnelState.up ∧
    (Start envPub mC5 hostPub fwdPub 4 (.ok 1) 4).result =
      .error (NewClassifiedError (str "public bind rejected by security policy")
        (str "local bind address requires allow-public override")) := by decide

/-- C5 as amended: provided validation passes (ports, endpoints and bind
policy — `startValidateErr` returns `none`), a `Start` whose `TunnelID`
already has an `up` entry returns that record unchanged, does not invoke the
launcher, and leaves the runtime and cancel maps unchanged (only the
one-shot override field is reset); and a `Start` whose validation fails also
leaves both maps unchanged without invoking the launcher, but returns the
validation error instead of the existing record. -/
theorem C5_start_idempotent_on_up_entry :
    (∀ (env : Env) (m : Manager) (host : HostEntry) (fwd : ForwardSpec)
      (now : Nat) (launch : Except GoErr Int) (now2 : Nat) (rt : TunnelRuntime),
      startValidateErr env m fwd = none →
      findRt m.runtime (RuntimeID host.Alias fwd) = some rt →
      rt.State = TunnelState.up →
      Start env m host fwd now launch now2 =
        ⟨{ m with allowPublicBind := false }, .ok rt, false, none⟩) ∧
    (∀ (env : Env) (m : Manager) (host : HostEntry) (fwd : ForwardSpec)
      (now : Nat) (launch : Except GoErr Int) (now2 : Nat) (e : GoErr),
      startValidateErr env m fwd = some e →
      Start env m host fwd now launch now2 =
        ⟨{ m with allowPublicBind := false }, .error e, false, none⟩) := by
  constructor
  · intro env m host fwd now launch now2 rt hval hfind hup
    unfold Start startPhase1
    simp [hval, hfind, hup]
  · intro env m host fwd now launch now2 e hval
    unfold Start startPhase1
    simp [hval]

/-- C5 witness: the amended theorem at a concrete loopback forward whose
`up` entry is returned unchanged with both maps untouched. -/
theorem C5_start_idempotent_witness :
    Start envPub mC5w hostLoop fwdLoop 7 (.ok 99) 7 =
      ⟨{ mC5w with allowPublicBind := false }, .ok rtUpLoop, false, none⟩ :=
  C5_start_idempotent_on_up_entry.1 envPub mC5w hostLoop fwdLoop 7 (.ok 99) 7 rtUpLoop
    (by decide) (by decide) (by decide)

/-! ## C4 — LoadRuntime reconciliation of saved records -/

/-- C4: `LoadRuntime`'s per-record reconciliation behaves exactly as
claimed: a record with a positive, live PID whose `ps` command line matches
the managed-ssh signature (`ssh`, `-N`, `-L`, the host alias, both canonical
endpoints) is adopted verbatim — no field changed — and the embedding of
`LoadRuntime` spawns no watcher (only `Start`'s success path sets a
`watcherFor`); a live but mismatched (or unreadable) command line sends the
record to `quarantined` with PID 0; everything else goes to `down` with
PID 0. -/
theorem C4_load_runtime_reconciliation :
    (∀ (env : Env) (m : Manager) (rt : TunnelRuntime) (c : GoStr),
      rt.PID > 0 → processAlive env rt.PID = true →
      processCommand env rt.PID = some c → isManagedTunnelProcess c rt = true →
      loadRecord env rt = rt ∧
      findRt (LoadRuntime env m [rt]).runtime rt.ID = some rt) ∧
    (∀ (env : Env) (rt : TunnelRuntime),
      rt.PID > 0 → processAlive env rt.PID = true →
      (processCommand env rt.PID = none ∨
        (∃ c, processCommand env rt.PID = some c ∧ isManagedTunnelProcess c rt = false)) →
      (loadRecord env rt).State = TunnelState.quarantined ∧ (loadRecord env rt).PID = 0) ∧
    (∀ (env : Env) (rt : TunnelRuntime),
      ¬ (rt.PID > 0 ∧ processAlive env rt.PID = true) →
      loadRecord env rt = { rt with State := TunnelState.down, PID := 0 }) := by
  refine ⟨?_, ?_, ?_⟩
  · intro env m rt c h1 h2 h3 h4
    have hload : loadRecord env rt = rt := by
      unfold loadRecord
      simp [h1, h2, h3, h4]
    refine ⟨hload, ?_⟩
    unfold LoadRuntime
    simp [hload, findRt_setRt]
  · intro env rt h1 h2 h3
    unfold loadRecord
    rcases h3 with h3 | ⟨c, h3, h4⟩
    · simp [h1, h2, h3]
    · simp [h1, h2, h3, h4]
  · intro env rt h
    unfold loadRecord
    rw [if_neg]
    intro hc
    exact h ⟨hc.1, hc.2⟩

/-- C4 witness: the three branches at concrete records — a matching live ssh
process is adopted as-is, the repository-test scenario of an unrelated live
`sleep 30` process is quarantined with PID cleared, and a dead PID goes to
`down`. -/
theorem C4_load_runtime_witness :
    loadRecord envC4 rtSavedC4 = rtSavedC4 ∧
    (loadRecord envC4sleep rtSavedC4).State = TunnelState.quarantined ∧
    (loadRecord envC4sleep rtSavedC4).PID = 0 ∧
    loadRecord envTriv rtSavedC4 =
      { rtSavedC4 with State := TunnelState.down, PID := 0 } := by
  refine ⟨(C4_load_runtime_reconciliation.1 envC4 NewManager rtSavedC4
      (str "ssh -N -L 127.0.0.1:15432:localhost:5432 prod")
      (by decide) (by decide) (by decide) (by decide)).1, ?_, ?_⟩
  · exact (C4_load_runtime_reconciliation.2.1 envC4sleep rtSavedC4 (by decide) (by decide)
      (Or.inr ⟨str "sleep 30", by decide, by decide⟩)).1
  · refine ⟨(C4_load_runtime_reconciliation.2.1 envC4sleep rtSavedC4 (by decide) (by decide)
      (Or.inr ⟨str "sleep 30", by decide, by decide⟩)).2, ?_⟩
    exact C4_load_runtime_reconciliation.2.2 envTriv rtSavedC4 (by decide)

/-! ## C2 — restart policy: quarantine at budget exhaustion (spec-modelled) -/

/-- The base invariant of the always-failing restart loop: with the policy
enabled and `k` attempts of budget left, the loop quarantines, performs `k`
further launches, and records exactly one failure stat. -/
theorem failLoop_quarantines (p : RestartPolicy) (hp : p.enabled = true) :
    ∀ (k : Nat) (s : RPState), s.attemptCounter + k = p.maxAttempts →
      (failLoop p (k + 1) s).entryState = .quarantined ∧
      (failLoop p (k + 1) s).launches = s.launches + k ∧
      (failLoop p (k + 1) s).stats.failures = s.stats.failures + 1 := by
  intro k
  induction k with
  | zero =>
    intro s hs
    have hge : s.attemptCounter ≥ p.maxAttempts := by omega
    simp [failLoop, consultRestartPolicy, hp, hge]
  | succ n ih =>
    intro s hs
    have hlt : ¬ s.attemptCounter ≥ p.maxAttempts := by omega
    have step : failLoop p (n + 1 + 1) s = failLoop p (n + 1) ⟨.up, s.attemptCounter + 1, ⟨s.stats.attempts + 1, s.stats.successes + 1, s.stats.failures⟩, s.launches + 1⟩ := by
      simp [failLoop, consultRestartPolicy, hp, hlt]
    rw [step]
    have h2 := ih ⟨.up, s.attemptCounter + 1, ⟨s.stats.attempts + 1, s.stats.successes + 1, s.stats.failures⟩, s.launches + 1⟩ (by simp; omega)
    simp at h2 ⊢
    exact ⟨h2.1, by omega, by omega⟩

/-- C2 (spec-modelled: the restart/watcher code is absent from `src/`; the
model follows §4.5): after a non-stopping exit with auto-restart enabled,
the watcher quarantines when the per-tunnel attempt counter has reached the
configured maximum and otherwise schedules a delayed restart after the
backoff; against an always-failing launcher the scenario ends `quarantined`
with the launcher invoked exactly `1 + maxAttempts` times (so `1 + 2 = 3`
for `max = 2`, as the claim instantiates). -/
theorem C2_restart_policy_quarantine :
    (∀ (p : RestartPolicy) (a : Nat), p.enabled = true → a ≥ p.maxAttempts →
      consultRestartPolicy p a = .quarantine) ∧
    (∀ (p : RestartPolicy) (a : Nat), p.enabled = true → a < p.maxAttempts →
      consultRestartPolicy p a = .schedule p.backoffSec) ∧
    (∀ p : RestartPolicy, p.enabled = true →
      (runFailingScenario p).entryState = .quarantined ∧
      (runFailingScenario p).launches = 1 + p.maxAttempts ∧
      (runFailingScenario p).stats.failures ≥ 1) := by
  refine ⟨?_, ?_, ?_⟩
  · intro p a hp ha
    simp [consultRestartPolicy, hp, ha]
  · intro p a hp ha
    simp [consultRestartPolicy, hp, Nat.not_le.mpr ha]
  · intro p hp
    have h3 := failLoop_quarantines p hp p.maxAttempts ⟨.up, 0, ⟨0, 0, 0⟩, 1⟩ (by simp)
    simp only [] at h3
    unfold runFailingScenario
    refine ⟨h3.1, ?_, ?_⟩
    · have := h3.2.1
      simp at this
      omega
    · have := h3.2.2
      simp at this
      omega

/-- C2 witness: the claim's concrete instance — policy `max = 2`, an
always-failing launcher: the entry ends `quarantined` and the launcher was
invoked `1 + 2 = 3` times. -/
theorem C2_restart_policy_witness :
    consultRestartPolicy ⟨true, 2, 1, 30⟩ 2 = .quarantine ∧
    consultRestartPolicy ⟨true, 2, 1, 30⟩ 0 = .schedule 1 ∧
    (runFailingScenario ⟨true, 2, 1, 30⟩).entryState = .quarantined ∧
    (runFailingScenario ⟨true, 2, 1, 30⟩).launches = 3 ∧
    (runFailingScenario ⟨true, 2, 1, 30⟩).stats.failures ≥ 1 := by
  refine ⟨C2_restart_policy_quarantine.1 _ 2 rfl (by decide),
    C2_restart_policy_quarantine.2.1 _ 0 rfl (by decide), ?_⟩
  have h := C2_restart_policy_quarantine.2.2 ⟨true, 2, 1, 30⟩ rfl
  refine ⟨h.1, ?_, h.2.2⟩
  have := h.2.1
  simp at this
  omega

/-! ## C1 — the PID/state relation over Snapshot and the runtime map -/

theorem setRt_setRt (l : List (GoStr × TunnelRuntime)) (id : GoStr) (a b : TunnelRuntime) :
    setRt (setRt l id a) id b = setRt l id b := by
  induction l with
  | nil => simp [setRt]
  | cons kv rest ih =>
    rcases kv with ⟨k, w⟩
    by_cases hk : k = id
    · simp [setRt, hk]
    · simp [setRt, hk, ih]

theorem inv_setRt {l : List (GoStr × TunnelRuntime)} {id : GoStr} {v : TunnelRuntime}
    (h : ∀ kv ∈ l, EntryInv kv.2) (hv : EntryInv v) :
    ∀ kv ∈ setRt l id v, EntryInv kv.2 := by
  intro kv hkv
  rcases mem_setRt hkv with h1 | h1
  · cases h1; exact hv
  · exact h kv h1

theorem stop_mgrInv (m : Manager) (id : GoStr) (h : MgrInv m) : MgrInv (Stop m id).1 := by
  unfold Stop
  split
  · exact h
  · rename_i rt hrt
    intro kv hkv
    simp only [setRt_setRt] at hkv
    refine inv_setRt h ?_ kv hkv
    refine ⟨fun hq => rfl, fun hp => ?_⟩
    simp at hp

theorem watch_mgrInv (env : Env) (m : Manager) (id : GoStr) (e : Option GoErr)
    (h : MgrInv m) : MgrInv (watchProcess env m id e) := by
  unfold watchProcess
  split
  · exact h
  · rename_i rt hrt
    split
    · split
      · intro kv hkv
        refine inv_setRt h ?_ kv hkv
        exact ⟨fun hq => by simp at hq, fun hp => Or.inr (Or.inl rfl)⟩
      · intro kv hkv
        refine inv_setRt h ?_ kv hkv
        exact ⟨fun hq => by simp at hq, fun hp => Or.inr (Or.inr rfl)⟩
    · exact h

theorem seed_entryInv (host : HostEntry) (fwd : ForwardSpec) (now : Nat) (id : GoStr) :
    EntryInv (seedRuntime host fwd now id) := by
  refine ⟨fun hq => rfl, fun hp => ?_⟩
  simp [seedRuntime] at hp

theorem start_mgrInv (env : Env) (m : Manager) (host : HostEntry) (fwd : ForwardSpec)
    (now : Nat) (launch : Except GoErr Int) (now2 : Nat) (h : MgrInv m) :
    MgrInv (Start env m host fwd now launch now2).mgr := by
  unfold Start
  rcases hph : startPhase1 env m host fwd now with ⟨m1, ph⟩
  cases ph with
  | failed e =>
    have := startPhase1_failed_apb hph
    subst this
    exact h
  | existing rt =>
    have := startPhase1_existing_apb hph
    subst this
    exact h
  | proceed id rt =>
    obtain ⟨hid, hrt, hm1⟩ := startPhase1_proceed_eq hph
    cases launch with
    | error e =>
      simp only [startFinishErr]
      intro kv hkv
      simp only [hm1, setRt_setRt] at hkv
      refine inv_setRt h ?_ kv hkv
      subst hrt
      refine ⟨fun hq => by simp at hq, fun hp => ?_⟩
      simp [seedRuntime] at hp
    | ok pid =>
      simp only [startFinishOk]
      split
      · intro kv hkv
        simp only [hm1, setRt_setRt] at hkv
        refine inv_setRt h ?_ kv hkv
        exact ⟨fun hq => by simp at hq, fun hp => Or.inl rfl⟩
      · intro kv hkv
        simp only [hm1, setRt_setRt] at hkv
        refine inv_setRt h ?_ kv hkv
        exact ⟨fun hq => by simp at hq, fun hp => Or.inl rfl⟩

theorem foldStop_mgrInv (ids : List GoStr) :
    ∀ m : Manager, MgrInv m → MgrInv (ids.foldl (fun mm id => (Stop mm id).1) m) := by
  induction ids with
  | nil => intro m h; exact h
  | cons id rest ih =>
    intro m h
    exact ih _ (stop_mgrInv m id h)

theorem stopByHost_mgrInv (m : Manager) (hostAlias : GoStr) (h : MgrInv m) :
    MgrInv (StopByHost m hostAlias).1 := by
  unfold StopByHost
  split
  · exact h
  · exact foldStop_mgrInv _ m h

theorem stopAll_mgrInv (m : Manager) (h : MgrInv m) : MgrInv (StopAll m) := by
  unfold StopAll
  exact foldStop_mgrInv _ m h

theorem loadRecord_entryInv (env : Env) (rt : TunnelRuntime) (h : EntryInv rt) :
    EntryInv (loadRecord env rt) := by
  unfold loadRecord
  split
  · split
    · split
      · exact h
      · exact ⟨fun _ => rfl, fun hp => by simp at hp⟩
    · exact ⟨fun _ => rfl, fun hp => by simp at hp⟩
  · exact ⟨fun hq => by simp at hq, fun hp => by simp at hp⟩

theorem loadRuntime_mgrInv (env : Env) (records : List TunnelRuntime) :
    ∀ m : Manager, MgrInv m → (∀ rt ∈ records, EntryInv rt) →
      MgrInv (LoadRuntime env m records) := by
  induction records with
  | nil => intro m h _; exact h
  | cons rt rest ih =>
    intro m h hrec
    unfold LoadRuntime at *
    simp only [List.foldl_cons]
    refine ih _ ?_ (fun r hr => hrec r (List.mem_cons_of_mem _ hr))
    intro kv hkv
    exact inv_setRt h (loadRecord_entryInv env rt (hrec rt (List.mem_cons_self _ _))) kv hkv

theorem snapshotEntry_state_pid (now : Nat) (probe : GoStr → Option Int) (rt : TunnelRuntime) :
    (snapshotEntry now probe rt).State = rt.State ∧
    (snapshotEntry now probe rt).PID = rt.PID := by
  unfold snapshotEntry
  by_cases h : rt.StartedAt ≠ 0
  · simp only [if_pos h]
    split
    · cases probe rt.Local <;> simp
    · simp
  · simp only [if_neg h]
    split
    · cases probe rt.Local <;> simp
    · simp

theorem snapshot_state_pid (m : Manager) (now : Nat) (probe : GoStr → Option Int) :
    ∀ rt ∈ Snapshot m now probe, ∃ kv ∈ m.runtime,
      rt.State = kv.2.State ∧ rt.PID = kv.2.PID := by
  intro rt hrt
  unfold Snapshot at hrt
  rcases List.mem_map.mp hrt with ⟨kv, hkv, heq⟩
  refine ⟨kv, hkv, ?_⟩
  subst heq
  exact snapshotEntry_state_pid now probe kv.2

/-- C1 counterexample: the claim as stated says PID ≠ 0 implies state `up`.
It fails: after the watcher observes an unexpected exit, the state becomes
`error` (or `down`) while the PID is left untouched, and `Snapshot` then
returns an entry with a nonzero PID whose state is not `up`. -/
theorem C1_counterexample_watchProcess_keeps_pid :
    ∃ rt ∈ Snapshot (watchProcess envTriv mC1 (str "api|127.0.0.1:9000|localhost:80")
        (some (.plain (str "exit status 1")))) 6 (fun _ => none),
      rt.PID ≠ 0 ∧ rt.State ≠ TunnelState.up := by decide

/-- C1 as amended: after any completed supervisor operation — `Start`,
`Stop`, `StopByHost`, `StopAll`, a watcher wake-up, or `LoadRuntime` over
records already satisfying the relation — every entry of the runtime map and
of any `Snapshot` slice satisfies: a `quarantined` entry has PID 0, and an
entry with a nonzero PID is in state `up`, `error` or `down` (not
necessarily `up`: the watcher keeps the exited process's PID, see the
counterexample). -/
theorem C1_pid_state_relation (env : Env) (m : Manager) (op : MgrOp) (now : Nat)
    (probe : GoStr → Option Int)
    (hinv : MgrInv m)
    (hrec : ∀ records, op = .loadRuntimeOp records → ∀ rt ∈ records, EntryInv rt) :
    MgrInv (applyOp env m op) ∧
    ∀ rt ∈ Snapshot (applyOp env m op) now probe,
      (rt.State = TunnelState.quarantined → rt.PID = 0) ∧
      (rt.PID ≠ 0 → rt.State = TunnelState.up ∨ rt.State = TunnelState.error ∨
        rt.State = TunnelState.down) := by
  have hmain : MgrInv (applyOp env m op) := by
    cases op with
    | startOp host fwd now1 launch now2 =>
      exact start_mgrInv env m host fwd now1 launch now2 hinv
    | stopOp id => exact stop_mgrInv m id hinv
    | stopByHostOp a => exact stopByHost_mgrInv m a hinv
    | stopAllOp => exact stopAll_mgrInv m hinv
    | watchExitOp id e => exact watch_mgrInv env m id e hinv
    | loadRuntimeOp records => exact loadRuntime_mgrInv env records m hinv (hrec records rfl)
  refine ⟨hmain, ?_⟩
  intro rt hrt
  rcases snapshot_state_pid _ now probe rt hrt with ⟨kv, hkv, hs, hp⟩
  rw [hs, hp]
  exact hmain kv hkv

/-- C1 witness: the relation at a concrete successful `Start` from the empty
manager. -/
theorem C1_pid_state_relation_witness :
    MgrInv (applyOp envTriv NewManager (.startOp hostLoop fwdLoop 1 (.ok 5) 2)) ∧
    ∀ rt ∈ Snapshot (applyOp envTriv NewManager (.startOp hostLoop fwdLoop 1 (.ok 5) 2)) 3
        (fun _ => none),
      (rt.State = TunnelState.quarantined → rt.PID = 0) ∧
      (rt.PID ≠ 0 → rt.State = TunnelState.up ∨ rt.State = TunnelState.error ∨
        rt.State = TunnelState.down) :=
  C1_pid_state_relation envTriv NewManager (.startOp hostLoop fwdLoop 1 (.ok 5) 2) 3
    (fun _ => none) (by decide) (by intro records h; cases h)

/-! ## C3 — leaving `quarantined`, and reaching `up` through `starting` -/

theorem assoc_keys_unique {l : List (GoStr × TunnelRuntime)} (hk : (l.map (·.1)).Nodup) :
    ∀ kv ∈ l, ∀ kv' ∈ l, kv.1 = kv'.1 → kv = kv' := by
  induction l with
  | nil =>
    intro kv h
    exact absurd h (List.not_mem_nil kv)
  | cons x rest ih =>
    simp only [List.map_cons, List.nodup_cons] at hk
    intro kv hkv kv' hkv' he
    rcases List.mem_cons.mp hkv with rfl | h1
    · rcases List.mem_cons.mp hkv' with rfl | h2
      · rfl
      · have hx : kv.1 ∈ rest.map (·.1) := by
          rw [he]
          exact List.mem_map_of_mem _ h2
        exact absurd hx hk.1
    · rcases List.mem_cons.mp hkv' with rfl | h2
      · have hx : kv'.1 ∈ rest.map (·.1) := by
          rw [← he]
          exact List.mem_map_of_mem _ h1
        exact absurd hx hk.1
      · exact ih hk.2 kv h1 kv' h2 he

theorem stop_other_id (m : Manager) (id id' : GoStr) (h : id ≠ id') :
    findRt (Stop m id').1.runtime id = findRt m.runtime id := by
  unfold Stop
  split
  · rfl
  · simp only [setRt_setRt]
    exact findRt_setRt_ne _ _ _ _ h

theorem foldStop_other_id (ids : List GoStr) :
    ∀ m : Manager, ∀ id, id ∉ ids →
      findRt ((ids.foldl (fun mm i => (Stop mm i).1) m).runtime) id = findRt m.runtime id := by
  induction ids with
  | nil => intro m id _; rfl
  | cons i rest ih =>
    intro m id hni
    simp only [List.foldl_cons]
    rw [ih _ id (fun hm => hni (List.mem_cons_of_mem _ hm))]
    exact stop_other_id m id i (fun he => hni (he ▸ List.mem_cons_self _ _))

/-- C3 counterexample: the claim says `Stop` never moves an entry out of
`quarantined`.  It does: `Stop` does not inspect the state, so a quarantined
entry is finalized to `down` (with the call reporting success). -/
theorem C3_counterexample_stop_unquarantines :
    rtQuarC3.State = TunnelState.quarantined ∧
    (Stop mC3 rtQuarC3.ID).2 = none ∧
    findRt (Stop mC3 rtQuarC3.ID).1.runtime rtQuarC3.ID =
      some { rtQuarC3 with State := TunnelState.down, PID := 0 } := by decide

/-- C3 as amended: among the stop entry points only `StopByHost` never moves
an entry out of `quarantined` (its active-state filter skips them); `Stop`
and `StopAll` finalize quarantined entries to `down` and `Start` overwrites
them (counterexample).  Within a `Start`, the runtime map is untouched
unless the launcher is invoked, and when it is, the started id was first
written as a `starting` record by the same call while every other id keeps
its previous record — so an entry only reaches `up` through `starting`.
`Recover` (spec-modelled; its code is absent from `src/`) starts only
quarantined entries and rejects all others. -/
theorem C3_quarantine_and_starting :
    (∀ (m : Manager) (hostAlias id : GoStr) (rt : TunnelRuntime),
      KeysUnique m → findRt m.runtime id = some rt →
      rt.State = TunnelState.quarantined →
      findRt (StopByHost m hostAlias).1.runtime id = some rt) ∧
    (∀ (env : Env) (m : Manager) (host : HostEntry) (fwd : ForwardSpec) (now : Nat)
      (launch : Except GoErr Int) (now2 : Nat),
      ((Start env m host fwd now launch now2).launched = false →
        (Start env m host fwd now launch now2).mgr.runtime = m.runtime) ∧
      ((Start env m host fwd now launch now2).launched = true →
        findRt (startPhase1 env m host fwd now).1.runtime (RuntimeID host.Alias fwd) =
          some (seedRuntime host fwd now (RuntimeID host.Alias fwd)) ∧
        (seedRuntime host fwd now (RuntimeID host.Alias fwd)).State = TunnelState.starting ∧
        ∀ id, id ≠ RuntimeID host.Alias fwd →
          findRt (Start env m host fwd now launch now2).mgr.runtime id =
            findRt m.runtime id)) ∧
    (∀ (env : Env) (m : Manager) (id : GoStr) (host : HostEntry)
      (launch : Except GoErr Int) (now now2 : Nat) (rt : TunnelRuntime),
      findRt m.runtime id = some rt →
      (rt.State ≠ TunnelState.quarantined →
        Recover env m id host launch now now2 =
          .error (.plain (str "tunnel is not quarantined"))) ∧
      (rt.State = TunnelState.quarantined →
        Recover env m id host launch now now2 =
          .ok (Start env m host rt.Forward now launch now2))) := by
  refine ⟨?_, ?_, ?_⟩
  · intro m hostAlias id rt hk hq hs
    unfold StopByHost
    split
    · exact hq
    · have hni : id ∉ stopByHostIds m hostAlias := by
        intro hmem
        unfold stopByHostIds at hmem
        rcases List.mem_map.mp hmem with ⟨kv, hkv, hkv1⟩
        have hkvm := (List.mem_filter.mp hkv).1
        have hact := (List.mem_filter.mp hkv).2
        have heq := assoc_keys_unique hk kv hkvm (id, rt) (findRt_mem hq) (by rw [hkv1])
        rw [heq] at hact
        unfold stopByHostActive at hact
        rw [hs] at hact
        simp at hact
      simp only []
      rw [foldStop_other_id _ m id hni]
      exact hq
  · intro env m host fwd now launch now2
    unfold Start
    rcases hph : startPhase1 env m host fwd now with ⟨m1, ph⟩
    cases ph with
    | failed e =>
      have := startPhase1_failed_apb hph
      subst this
      exact ⟨fun _ => rfl, fun hl => by simp at hl⟩
    | existing rt =>
      have := startPhase1_existing_apb hph
      subst this
      exact ⟨fun _ => rfl, fun hl => by simp at hl⟩
    | proceed id0 rt =>
      obtain ⟨hid, hrt, hm1⟩ := startPhase1_proceed_eq hph
      subst hid
      refine ⟨?_, ?_⟩
      · intro hl
        cases launch with
        | error e => simp [startFinishErr] at hl
        | ok pid =>
          simp only [startFinishOk] at hl
          revert hl
          split <;> simp
      · intro _
        refine ⟨?_, rfl, ?_⟩
        · rw [hm1]
          simp only []
          rw [hrt]
          exact findRt_setRt _ _ _
        · intro id hne
          cases launch with
          | error e =>
            simp only [startFinishErr, hm1, setRt_setRt]
            exact findRt_setRt_ne _ _ _ _ hne
          | ok pid =>
            simp only [startFinishOk]
            split <;> (simp only [hm1, setRt_setRt]; exact findRt_setRt_ne _ _ _ _ hne)
  · intro env m id host launch now now2 rt hfind
    unfold Recover
    rw [hfind]
    constructor
    · intro h
      simp [h]
    · intro h
      simp [h]

/-- C3 witness: the amended theorem at concrete states — `StopByHost`
leaves the quarantined `rtQuarC3` untouched, and `Recover` starts it. -/
theorem C3_quarantine_and_starting_witness :
    findRt (StopByHost mC3 (str "api")).1.runtime rtQuarC3.ID = some rtQuarC3 ∧
    Recover envTriv mC3 rtQuarC3.ID hostLoop (.ok 4) 1 2 =
      .ok (Start envTriv mC3 hostLoop rtQuarC3.Forward 1 (.ok 4) 2) := by
  constructor
  · exact C3_quarantine_and_starting.1 mC3 (str "api") rtQuarC3.ID rtQuarC3
      (by decide) (by decide) (by decide)
  · exact (C3_quarantine_and_starting.2.2 envTriv mC3 rtQuarC3.ID hostLoop (.ok 4) 1 2
      rtQuarC3 (by decide)).2 (by decide)

/-! ### C8: parser warnings and continuation past malformed lines -/

theorem dropWhileGo_suffix (p : Char → Bool) (l : GoStr) : dropWhileGo p l <:+ l := by
  induction l with
  | nil => simp [dropWhileGo]
  | cons c rest ih =>
    unfold dropWhileGo
    split
    · exact ih.trans (List.suffix_cons _ _)
    · exact List.suffix_refl _

theorem dropWhileGo_head_false {p : Char → Bool} {l : GoStr} {c : Char} {r : GoStr}
    (h : dropWhileGo p l = c :: r) : p c = false := by
  induction l with
  | nil => simp [dropWhileGo] at h
  | cons x rest ih =>
    unfold dropWhileGo at h
    split at h
    · exact ih h
    · rename_i hx
      cases h
      simpa using hx

theorem trimSpaceGo_pre_drop (s : GoStr) :
    trimSpaceGo s <+: dropWhileGo goSpace s := by
  unfold trimSpaceGo
  have h := dropWhileGo_suffix goSpace ((dropWhileGo goSpace s).reverse)
  have h2 := List.reverse_prefix.mpr h
  simpa using h2

theorem trimSpaceGo_head_nonspace {s : GoStr} {c : Char} {r : GoStr}
    (h : trimSpaceGo s = c :: r) : goSpace c = false := by
  have hp := trimSpaceGo_pre_drop s
  rw [h] at hp
  rcases hp with ⟨t, ht⟩
  exact dropWhileGo_head_false ht.symm

theorem fieldsAux_ne_nil_of_cur {cur : GoStr} (h : cur ≠ []) (l : GoStr) :
    fieldsAux l cur ≠ [] := by
  induction l generalizing cur with
  | nil => simp [fieldsAux, h]
  | cons c rest ih =>
    unfold fieldsAux
    split
    · simp [h]
    · exact ih (by simp)

theorem fieldsGo_trim_ne_nil {w : GoStr} (h : trimSpaceGo w ≠ []) :
    fieldsGo (trimSpaceGo w) ≠ [] := by
  rcases he : trimSpaceGo w with _ | ⟨c, r⟩
  · exact absurd he h
  · have hc := trimSpaceGo_head_nonspace he
    unfold fieldsGo fieldsAux
    rw [hc]
    simp only [Bool.false_eq_true, if_false]
    exact fieldsAux_ne_nil_of_cur (by simp) r

theorem splitDirective_value_fields {l k v : GoStr} (h : splitDirective l = some (k, v)) :
    fieldsGo v ≠ [] := by
  simp only [splitDirective] at h
  split at h
  · split at h
    · rename_i hkv
      rw [Option.some.injEq, Prod.mk.injEq] at h
      rcases h with ⟨_, hv⟩
      subst hv
      exact fieldsGo_trim_ne_nil hkv.2
    · simp at h
  · split at h
    · split at h
      · rename_i hkv
        rw [Option.some.injEq, Prod.mk.injEq] at h
        rcases h with ⟨_, hv⟩
        subst hv
        exact fieldsGo_trim_ne_nil hkv.2
      · simp at h
    · simp at h

theorem stepCore_offending {raw : GoStr} (abs : GoStr)
    (c : List RawBlock × List GoStr × RawBlock × Bool)
    (h : offendingLine raw = true) : stepCore abs c raw = c := by
  simp only [offendingLine] at h
  simp only [stepCore]
  by_cases h1 : trimSpaceGo raw = [] ∨ startsWithGo (trimSpaceGo raw) (str "#") = true
  · simp [h1]
  · simp only [h1, if_false] at h ⊢
    by_cases h2 : stripInlineComment (trimSpaceGo raw) = []
    · simp [h2]
    · simp only [h2, if_false] at h ⊢
      rcases hsd : splitDirective (stripInlineComment (trimSpaceGo raw)) with _ | kv
      · simp [hsd]
      · rw [hsd] at h
        simp at h

theorem processLine_core (env : PEnv) (rec0 : GoStr → List GoStr → ParseOut) (abs : GoStr)
    (st : LoopSt) (n : Nat) (raw : GoStr) (h : noIncludeLine raw = true) :
    processLine env rec0 abs st n raw =
      ⟨(stepCore abs (coreOf st) raw).1,
       st.warnings ++ (if offendingLine raw then [invalidDirectiveWarning abs n] else []),
       (stepCore abs (coreOf st) raw).2.1,
       (stepCore abs (coreOf st) raw).2.2.1,
       (stepCore abs (coreOf st) raw).2.2.2⟩ := by
  simp only [noIncludeLine, lineKeyIs, decide_eq_true_eq] at h
  simp only [processLine, stepCore, coreOf, offendingLine, invalidDirectiveWarning]
  by_cases h1 : trimSpaceGo raw = [] ∨ startsWithGo (trimSpaceGo raw) (str "#") = true
  · simp [h1]
  · simp only [h1, if_false] at h ⊢
    by_cases h2 : stripInlineComment (trimSpaceGo raw) = []
    · rw [h2] at h ⊢
      simp [splitDirective, indexAnyGo, indexCharGo]
    · simp only [h2, if_false]
      rcases hsd : splitDirective (stripInlineComment (trimSpaceGo raw)) with _ | ⟨key, value⟩
      · simp [hsd]
      · rw [hsd] at h
        simp only [decide_eq_true_eq] at h
        simp only [hsd]
        simp only [h, if_false]
        by_cases hh : toLowerGo key = str "host"
        · simp only [hh, if_pos rfl]
          rw [if_neg (splitDirective_value_fields hsd)]
          simp
        · simp [hh]

theorem scanFold_core (env : PEnv) (rec0 : GoStr → List GoStr → ParseOut) (abs : GoStr)
    (ls : List GoStr) (k : Nat) (st : LoopSt)
    (h : ∀ l ∈ ls, noIncludeLine l = true) :
    (List.enumFrom k ls).foldl
        (fun st1 p => processLine env rec0 abs st1 (p.1 + 1) p.2) st =
      ⟨(ls.foldl (stepCore abs) (coreOf st)).1,
       st.warnings ++ warningsSpecFrom abs k ls,
       (ls.foldl (stepCore abs) (coreOf st)).2.1,
       (ls.foldl (stepCore abs) (coreOf st)).2.2.1,
       (ls.foldl (stepCore abs) (coreOf st)).2.2.2⟩ := by
  induction ls generalizing k st with
  | nil => simp [warningsSpecFrom, List.enumFrom, coreOf]
  | cons l rest ih =>
    simp only [List.enumFrom, List.foldl_cons]
    rw [processLine_core env rec0 abs st (k + 1) l (h l (by simp))]
    rw [ih (k + 1) _ (fun x hx => h x (by simp [hx]))]
    simp only [warningsSpecFrom, List.enumFrom, List.filterMap_cons, coreOf]
    by_cases hol : offendingLine l = true
    · simp [hol, List.append_assoc]
    · simp [hol]

theorem warningsSpecFrom_clean (abs : GoStr) (k : Nat) (ls : List GoStr)
    (h : ∀ l ∈ ls, offendingLine l = false) : warningsSpecFrom abs k ls = [] := by
  induction ls generalizing k with
  | nil => rfl
  | cons l rest ih =>
    simp only [warningsSpecFrom, List.enumFrom, List.filterMap_cons] at *
    rw [h l (by simp)]
    simp only [Bool.false_eq_true, if_false]
    exact ih (k + 1) (fun x hx => h x (by simp [hx]))

theorem foldl_stepCore_filtered (abs : GoStr) (ls : List GoStr)
    (c : List RawBlock × List GoStr × RawBlock × Bool) :
    (ls.filter (fun l => !offendingLine l)).foldl (stepCore abs) c =
      ls.foldl (stepCore abs) c := by
  induction ls generalizing c with
  | nil => rfl
  | cons l rest ih =>
    by_cases hl : offendingLine l = true
    · simp only [List.filter_cons, hl, Bool.not_true, Bool.false_eq_true, if_false,
        List.foldl_cons]
      rw [stepCore_offending abs c hl]
      exact ih c
    · have hl2 : offendingLine l = false := by simpa using hl
      simp only [List.filter_cons, hl2, Bool.not_false, List.foldl_cons, if_pos]
      exact ih (stepCore abs c l)

theorem parseRec_succ_noInclude (env : PEnv) (fuel : Nat) (path abs : GoStr) (ls : List GoStr)
    (hab : env.absPath path = some abs) (hfs : env.fs abs = .lines ls)
    (hni : ∀ l ∈ ls, noIncludeLine l = true) :
    parseRec env (fuel + 1) path [] =
      .ok (flushCore (ls.foldl (stepCore abs) ([], [abs], ⟨[str "*"], [], abs⟩, false)))
          (warningsSpec abs ls)
          (ls.foldl (stepCore abs) ([], [abs], ⟨[str "*"], [], abs⟩, false)).2.1 := by
  simp only [parseRec, hab, hfs, List.contains_nil, Bool.false_eq_true, if_false,
    List.nil_append]
  rw [show List.enum ls = List.enumFrom 0 ls from rfl]
  rw [scanFold_core env _ abs ls 0 ⟨[], [], [abs], ⟨[str "*"], [], abs⟩, false⟩ hni]
  simp only [flushCore, coreOf, warningsSpec, warningsSpecFrom]
  rfl

theorem globMatch_congr {env env2 : PEnv} (hmg : env2.matchGlob = env.matchGlob)
    (alias0 pattern : GoStr) : globMatch env2 alias0 pattern = globMatch env alias0 pattern := by
  simp [globMatch, hmg]

theorem matchesAnyAux_congr {env env2 : PEnv} (hmg : env2.matchGlob = env.matchGlob)
    (alias0 : GoStr) (ps : List GoStr) :
    ∀ m : Bool, matchesAnyAux env2 alias0 ps m = matchesAnyAux env alias0 ps m := by
  induction ps with
  | nil => intro m; rfl
  | cons p rest ih =>
    intro m
    simp only [matchesAnyAux, globMatch_congr hmg, ih]

theorem matchesAny_congr {env env2 : PEnv} (hmg : env2.matchGlob = env.matchGlob)
    (alias0 : GoStr) (ps : List GoStr) :
    matchesAny env2 alias0 ps = matchesAny env alias0 ps :=
  matchesAnyAux_congr hmg alias0 ps false

theorem expandHome_congr {env env2 : PEnv} (hhome : env2.home = env.home)
    (hjoin : env2.joinPath = env.joinPath) (path : GoStr) :
    expandHome env2 path = expandHome env path := by
  simp [expandHome, hhome, hjoin]

theorem mergeBlock_congr {env env2 : PEnv} (hhome : env2.home = env.home)
    (hjoin : env2.joinPath = env.joinPath) (hmg : env2.matchGlob = env.matchGlob)
    (alias0 : GoStr) (h : HostEntry) (b : RawBlock) :
    mergeBlock env2 alias0 h b = mergeBlock env alias0 h b := by
  simp only [mergeBlock, matchesAny_congr hmg, expandHome_congr hhome hjoin]

theorem compileHosts_congr {env env2 : PEnv} (hhome : env2.home = env.home)
    (hjoin : env2.joinPath = env.joinPath) (hmg : env2.matchGlob = env.matchGlob)
    (blocks : List RawBlock) : compileHosts env2 blocks = compileHosts env blocks := by
  have hfold : ∀ (al : GoStr) (bs : List RawBlock) (h0 : HostEntry),
      bs.foldl (mergeBlock env2 al) h0 = bs.foldl (mergeBlock env al) h0 := by
    intro al bs
    induction bs with
    | nil => intro h0; rfl
    | cons b rest ih =>
      intro h0
      simp only [List.foldl_cons, mergeBlock_congr hhome hjoin hmg, ih]
  simp only [compileHosts, hfold]

theorem warningsSpec_clean (abs : GoStr) (ls : List GoStr)
    (h : ∀ l ∈ ls, offendingLine l = false) : warningsSpec abs ls = [] := by
  have : warningsSpec abs ls = warningsSpecFrom abs 0 ls := rfl
  rw [this]
  exact warningsSpecFrom_clean abs 0 ls h

/-- C8: for a single-file (no `Include`) parse, malformed lines never abort
the parse and produce exactly one warning each, in order; parsing the same
file with the offending lines removed yields the same hosts with no
warnings. -/
theorem C8_parser_warnings
    (env env2 : PEnv) (path abs : GoStr) (ls : List GoStr)
    (hab : env.absPath path = some abs) (hfs : env.fs abs = .lines ls)
    (hni : ∀ l ∈ ls, noIncludeLine l = true)
    (hab2 : env2.absPath path = some abs)
    (hfs2 : env2.fs abs = .lines (ls.filter (fun l => !offendingLine l)))
    (hhome : env2.home = env.home) (hjoin : env2.joinPath = env.joinPath)
    (hmg : env2.matchGlob = env.matchGlob) :
    ∃ hosts,
      ParseFile env path = .ok ⟨hosts, warningsSpec abs ls⟩ ∧
      ParseFile env2 path = .ok ⟨hosts, []⟩ := by
  refine ⟨compileHosts env
    (flushCore (ls.foldl (stepCore abs) ([], [abs], ⟨[str "*"], [], abs⟩, false))), ?_, ?_⟩
  · have h17 : parseRec env 17 path [] = parseRec env (16 + 1) path [] := rfl
    simp only [ParseFile, h17, parseRec_succ_noInclude env 16 path abs ls hab hfs hni]
  · have hni2 : ∀ l ∈ ls.filter (fun l => !offendingLine l), noIncludeLine l = true :=
      fun l hl => hni l (List.mem_of_mem_filter hl)
    have hoff2 : ∀ l ∈ ls.filter (fun l => !offendingLine l), offendingLine l = false := by
      intro l hl
      have := List.of_mem_filter hl
      simpa using this
    have h17 : parseRec env2 17 path [] = parseRec env2 (16 + 1) path [] := rfl
    simp only [ParseFile, h17, parseRec_succ_noInclude env2 16 path abs _ hab2 hfs2 hni2]
    rw [warningsSpec_clean abs _ hoff2, foldl_stepCore_filtered,
        compileHosts_congr hhome hjoin hmg]

theorem C8_counterexample_silent_invalid_localforward :
    parseLocalForward (str "bogus localhost:80") = none ∧
    ParseFile penvBadFwd (str "cfg") =
      .ok ⟨[⟨str "db", str "db", [], 22, [], [], [], false⟩], []⟩ := by
  refine ⟨by decide, ?_⟩
  decide

theorem C8_parser_warnings_witness :
    ((∀ l ∈ cfgC8, noIncludeLine l = true) ∧
     penvC8f.fs (str "cfg") = .lines (cfgC8.filter (fun l => !offendingLine l)) ∧
     warningsSpec (str "cfg") cfgC8 = [str "cfg:3 invalid directive"]) ∧
    ∃ hosts,
      ParseFile penvC8 (str "cfg") = .ok ⟨hosts, warningsSpec (str "cfg") cfgC8⟩ ∧
      ParseFile penvC8f (str "cfg") = .ok ⟨hosts, []⟩ :=
  ⟨⟨by decide, rfl, by decide⟩,
   C8_parser_warnings penvC8 penvC8f (str "cfg") (str "cfg") cfgC8
     rfl rfl (by decide) rfl rfl rfl rfl rfl⟩

/-! ### C9: error redaction and the home path -/

theorem replaceFuel_succ (pat rep : GoStr) (fuel : Nat) (s : GoStr) :
    replaceFuel pat rep (fuel + 1) s =
      if pat ≠ [] ∧ pat.isPrefixOf s then
        rep ++ replaceFuel pat rep fuel (s.drop pat.length)
      else
        match s with
        | [] => []
        | c :: rest => c :: replaceFuel pat rep fuel rest := rfl

theorem pre_replace_tilde (pat : GoStr) :
    ∀ (fuel : Nat) (u t : GoStr), '~' ∉ u →
      u <+: replaceFuel pat (str "~") fuel t → u <+: t := by
  intro fuel
  induction fuel with
  | zero =>
    intro u t _ h
    exact h
  | succ fuel ih =>
    intro u t hu h
    rw [replaceFuel_succ] at h
    by_cases hm : pat ≠ [] ∧ pat.isPrefixOf t = true
    · rw [if_pos hm] at h
      rcases u with _ | ⟨c, u1⟩
      · exact List.nil_prefix
      · have hc : (str "~") ++ replaceFuel pat (str "~") fuel (t.drop pat.length) =
            '~' :: replaceFuel pat (str "~") fuel (t.drop pat.length) := rfl
        rw [hc, List.cons_prefix_cons] at h
        obtain ⟨rfl, -⟩ := h
        exact absurd (List.mem_cons_self _ _) hu
    · rw [if_neg hm] at h
      rcases t with _ | ⟨c, t1⟩
      · simpa using h
      · rcases u with _ | ⟨c2, u1⟩
        · exact List.nil_prefix
        · rw [List.cons_prefix_cons] at h ⊢
          exact ⟨h.1, ih u1 t1 (fun hx => hu (List.mem_cons_of_mem _ hx)) h.2⟩

theorem replace_home_no_home (pat : GoStr) (hne : pat ≠ []) (ht : '~' ∉ pat) :
    ∀ (fuel : Nat) (s : GoStr), s.length ≤ fuel →
      ¬ pat <:+: replaceFuel pat (str "~") fuel s := by
  intro fuel
  induction fuel with
  | zero =>
    intro s hs h
    have hnil : s = [] := List.length_eq_zero.mp (Nat.le_zero.mp hs)
    subst hnil
    exact hne (List.infix_nil.mp h)
  | succ fuel ih =>
    intro s hs h
    rw [replaceFuel_succ] at h
    by_cases hm : pat ≠ [] ∧ pat.isPrefixOf s = true
    · rw [if_pos hm] at h
      have hc : (str "~") ++ replaceFuel pat (str "~") fuel (s.drop pat.length) =
          '~' :: replaceFuel pat (str "~") fuel (s.drop pat.length) := rfl
      rw [hc, List.infix_cons_iff] at h
      rcases h with h | h
      · rcases pat with _ | ⟨p0, pat1⟩
        · exact hne rfl
        · rw [List.cons_prefix_cons] at h
          obtain ⟨rfl, -⟩ := h
          exact ht (List.mem_cons_self _ _)
      · have hp1 : 1 ≤ pat.length := List.length_pos.mpr hne
        have hdl : (s.drop pat.length).length ≤ fuel := by
          simp only [List.length_drop]
          omega
        exact ih (s.drop pat.length) hdl h
    · rw [if_neg hm] at h
      rcases s with _ | ⟨c, s1⟩
      · exact hne (List.infix_nil.mp h)
      · rw [List.infix_cons_iff] at h
        rcases h with h | h
        · rcases hpe : pat with _ | ⟨p0, pat1⟩
          · exact hne hpe
          · subst hpe
            rw [List.cons_prefix_cons] at h
            obtain ⟨rfl, h2⟩ := h
            have h3 : pat1 <+: s1 :=
              pre_replace_tilde _ fuel pat1 s1
                (fun hx => ht (List.mem_cons_of_mem _ hx)) h2
            exact hm ⟨hne, List.isPrefixOf_iff_prefix.mpr
              (List.cons_prefix_cons.mpr ⟨rfl, h3⟩)⟩
        · have hs1 : s1.length ≤ fuel := by
            simp only [List.length_cons] at hs
            omega
          exact ih s1 hs1 h

theorem infix_append_split {w b : GoStr} : ∀ {a : GoStr}, w <:+: a ++ b →
    w <:+: b ∨ ∃ t, t <:+ a ∧ t ≠ [] ∧ w <+: t ++ b := by
  intro a
  induction a with
  | nil =>
    intro h
    exact Or.inl (by simpa using h)
  | cons c a1 ih =>
    intro h
    rw [List.cons_append, List.infix_cons_iff] at h
    rcases h with h | h
    · exact Or.inr ⟨c :: a1, List.suffix_refl _, by simp, by simpa using h⟩
    · rcases ih h with h2 | ⟨t, ht, htne, hw⟩
      · exact Or.inl h2
      · exact Or.inr ⟨t, ht.trans (List.suffix_cons c a1), htne, hw⟩

theorem pre_replace_ssh :
    ∀ (fuel : Nat) (u t : GoStr), '[' ∉ u →
      u <+: replaceFuel (str "/.ssh/") (str "/.ssh/[redacted]/") fuel t → u <+: t := by
  intro fuel
  induction fuel with
  | zero =>
    intro u t _ h
    exact h
  | succ fuel ih =>
    intro u t hu h
    rw [replaceFuel_succ] at h
    by_cases hm : (str "/.ssh/") ≠ [] ∧ (str "/.ssh/").isPrefixOf t = true
    · rw [if_pos hm] at h
      by_cases hlen : u.length ≤ 6
      · have hpp : (str "/.ssh/") <+: (str "/.ssh/[redacted]/") ++
            replaceFuel (str "/.ssh/") (str "/.ssh/[redacted]/") fuel
              (t.drop (str "/.ssh/").length) :=
          (show (str "/.ssh/") <+: (str "/.ssh/[redacted]/") by decide).trans
            (List.prefix_append _ _)
        have hup : u <+: (str "/.ssh/") := by
          refine List.prefix_of_prefix_length_le h hpp ?_
          have h6 : (str "/.ssh/").length = 6 := rfl
          omega
        exact hup.trans (List.isPrefixOf_iff_prefix.mp hm.2)
      · have hpp : (str "/.ssh/[") <+: (str "/.ssh/[redacted]/") ++
            replaceFuel (str "/.ssh/") (str "/.ssh/[redacted]/") fuel
              (t.drop (str "/.ssh/").length) :=
          (show (str "/.ssh/[") <+: (str "/.ssh/[redacted]/") by decide).trans
            (List.prefix_append _ _)
        have hsub : (str "/.ssh/[") <+: u := by
          refine List.prefix_of_prefix_length_le hpp h ?_
          have h7 : (str "/.ssh/[").length = 7 := rfl
          omega
        exact absurd (hsub.subset (by decide)) hu
    · rw [if_neg hm] at h
      rcases t with _ | ⟨c, t1⟩
      · simpa using h
      · rcases u with _ | ⟨c2, u1⟩
        · exact List.nil_prefix
        · rw [List.cons_prefix_cons] at h ⊢
          exact ⟨h.1, ih u1 t1 (fun hx => hu (List.mem_cons_of_mem _ hx)) h.2⟩

theorem ssh_rep_tails :
    ∀ t ∈ (str "/.ssh/[redacted]/").tails, t.head? = some '/' →
      t = str "/.ssh/[redacted]/" ∨ t = str "/[redacted]/" ∨ t = str "/" := by
  decide

theorem replace_ssh_no_home (w1 : GoStr) (hbr : '[' ∉ '/' :: w1) :
    ∀ (fuel : Nat) (s : GoStr), s.length ≤ fuel → ¬ ('/' :: w1) <:+: s →
      ¬ ('/' :: w1) <:+: replaceFuel (str "/.ssh/") (str "/.ssh/[redacted]/") fuel s := by
  intro fuel
  induction fuel with
  | zero =>
    intro s _ hinf h
    exact hinf h
  | succ fuel ih =>
    intro s hs hinf h
    rw [replaceFuel_succ] at h
    by_cases hm : (str "/.ssh/") ≠ [] ∧ (str "/.ssh/").isPrefixOf s = true
    · rw [if_pos hm] at h
      have hpat : (str "/.ssh/") <+: s := List.isPrefixOf_iff_prefix.mp hm.2
      have h6 : (str "/.ssh/").length = 6 := rfl
      rcases infix_append_split h with h | ⟨t, ht, htne, hwp⟩
      · have hdl : (s.drop (str "/.ssh/").length).length ≤ fuel := by
          have hl := hpat.length_le
          simp only [List.length_drop]
          omega
        have hninf : ¬ ('/' :: w1) <:+: s.drop (str "/.ssh/").length :=
          fun hx => hinf (hx.trans (List.drop_suffix _ s).isInfix)
        exact ih (s.drop (str "/.ssh/").length) hdl hninf h
      · obtain ⟨t1, rfl⟩ : ∃ t1, t = '/' :: t1 := by
          rcases t with _ | ⟨c, t1⟩
          · exact absurd rfl htne
          · rw [List.cons_append, List.cons_prefix_cons] at hwp
            exact ⟨t1, by rw [hwp.1]⟩
        rcases ssh_rep_tails ('/' :: t1) ((List.mem_tails _ _).mpr ht) rfl with
          hte | hte | hte
        · rw [hte] at hwp
          by_cases hlen : ('/' :: w1).length ≤ 6
          · have hpp : (str "/.ssh/") <+: (str "/.ssh/[redacted]/") ++
                replaceFuel (str "/.ssh/") (str "/.ssh/[redacted]/") fuel
                  (s.drop (str "/.ssh/").length) :=
              (show (str "/.ssh/") <+: (str "/.ssh/[redacted]/") by decide).trans
                (List.prefix_append _ _)
            have hup : ('/' :: w1) <+: (str "/.ssh/") :=
              List.prefix_of_prefix_length_le hwp hpp (by omega)
            exact hinf (hup.trans hpat).isInfix
          · have hpp : (str "/.ssh/[") <+: (str "/.ssh/[redacted]/") ++
                replaceFuel (str "/.ssh/") (str "/.ssh/[redacted]/") fuel
                  (s.drop (str "/.ssh/").length) :=
              (show (str "/.ssh/[") <+: (str "/.ssh/[redacted]/") by decide).trans
                (List.prefix_append _ _)
            have hsub : (str "/.ssh/[") <+: ('/' :: w1) := by
              refine List.prefix_of_prefix_length_le hpp hwp ?_
              have h7 : (str "/.ssh/[").length = 7 := rfl
              omega
            exact absurd (hsub.subset (by decide)) hbr
        · rw [hte] at hwp
          have hc2 : (str "/[redacted]/") ++
              replaceFuel (str "/.ssh/") (str "/.ssh/[redacted]/") fuel
                (s.drop (str "/.ssh/").length) =
              '/' :: ((str "[redacted]/") ++
                replaceFuel (str "/.ssh/") (str "/.ssh/[redacted]/") fuel
                  (s.drop (str "/.ssh/").length)) := rfl
          rw [hc2, List.cons_prefix_cons] at hwp
          rcases w1 with _ | ⟨c2, w2⟩
          · have hmem : '/' ∈ s := hpat.subset (by decide)
            obtain ⟨u, v, huv⟩ := List.append_of_mem hmem
            exact hinf ⟨u, v, by simp [huv]⟩
          · have hc3 : (str "[redacted]/") ++
                replaceFuel (str "/.ssh/") (str "/.ssh/[redacted]/") fuel
                  (s.drop (str "/.ssh/").length) =
                '[' :: ((str "redacted]/") ++
                  replaceFuel (str "/.ssh/") (str "/.ssh/[redacted]/") fuel
                    (s.drop (str "/.ssh/").length)) := rfl
            rw [hc3, List.cons_prefix_cons] at hwp
            obtain ⟨-, ⟨rfl, -⟩⟩ := hwp
            exact hbr (List.mem_cons_of_mem _ (List.mem_cons_self _ _))
        · rw [hte] at hwp
          have hc2 : (str "/") ++
              replaceFuel (str "/.ssh/") (str "/.ssh/[redacted]/") fuel
                (s.drop (str "/.ssh/").length) =
              '/' :: replaceFuel (str "/.ssh/") (str "/.ssh/[redacted]/") fuel
                (s.drop (str "/.ssh/").length) := rfl
          rw [hc2, List.cons_prefix_cons] at hwp
          have hw1 : w1 <+: s.drop (str "/.ssh/").length :=
            pre_replace_ssh fuel w1 _ (fun hx => hbr (List.mem_cons_of_mem _ hx)) hwp.2
          have hdrop5 : ('/' :: s.drop (str "/.ssh/").length) <:+ s := by
            have hseq : s = (str "/.ssh/") ++ s.drop (str "/.ssh/").length := by
              conv_lhs => rw [← List.take_append_drop (str "/.ssh/").length s]
              rw [← List.prefix_iff_eq_take.mp hpat]
            have : s.drop 5 = '/' :: s.drop (str "/.ssh/").length := by
              conv_lhs => rw [hseq]
              rw [List.drop_append_of_le_length (by omega)]
              rfl
            rw [← this]
            exact List.drop_suffix 5 s
          exact hinf ((List.cons_prefix_cons.mpr ⟨rfl, hw1⟩).isInfix.trans hdrop5.isInfix)
    · rw [if_neg hm] at h
      rcases s with _ | ⟨c, s1⟩
      · simp at h
      · rw [List.infix_cons_iff] at h
        rcases h with h | h
        · rw [List.cons_prefix_cons] at h
          obtain ⟨rfl, h2⟩ := h
          have hw1 : w1 <+: s1 :=
            pre_replace_ssh fuel w1 s1 (fun hx => hbr (List.mem_cons_of_mem _ hx)) h2
          exact hinf (List.cons_prefix_cons.mpr ⟨rfl, hw1⟩).isInfix
        · have hs1 : s1.length ≤ fuel := by
            simp only [List.length_cons] at hs
            omega
          have hninf : ¬ ('/' :: w1) <:+: s1 :=
            fun hx => hinf (hx.trans (List.suffix_cons c s1).isInfix)
          exact ih s1 hs1 hninf h

theorem replace_ssh_hit :
    ∀ (fuel : Nat) (s : GoStr), s.length ≤ fuel → (str "/.ssh/") <:+: s →
      (str "/.ssh/[redacted]/") <:+:
        replaceFuel (str "/.ssh/") (str "/.ssh/[redacted]/") fuel s := by
  intro fuel
  induction fuel with
  | zero =>
    intro s hs h
    have hnil : s = [] := List.length_eq_zero.mp (Nat.le_zero.mp hs)
    subst hnil
    exact absurd (List.infix_nil.mp h) (by decide)
  | succ fuel ih =>
    intro s hs h
    rw [replaceFuel_succ]
    by_cases hm : (str "/.ssh/") ≠ [] ∧ (str "/.ssh/").isPrefixOf s = true
    · rw [if_pos hm]
      exact (List.prefix_append _ _).isInfix
    · rw [if_neg hm]
      rcases s with _ | ⟨c, s1⟩
      · exact absurd (List.infix_nil.mp h) (by decide)
      · rw [List.infix_cons_iff] at h
        rcases h with h | h
        · exact absurd ⟨by decide, List.isPrefixOf_iff_prefix.mpr h⟩ hm
        · have hs1 : s1.length ≤ fuel := by
            simp only [List.length_cons] at hs
            omega
          exact ((ih s1 hs1 h).trans (List.suffix_cons c _).isInfix)

theorem RedactMessage_no_home (home msg : GoStr) (h1 : home ≠ [])
    (h2 : home.head? = some '/') (h3 : '~' ∉ home) (h4 : '[' ∉ home) :
    ¬ home <:+: RedactMessage (some home) msg := by
  obtain ⟨w1, rfl⟩ : ∃ w1, home = '/' :: w1 := by
    rcases home with _ | ⟨c, w1⟩
    · exact absurd rfl h1
    · rw [List.head?_cons, Option.some.injEq] at h2
      exact ⟨w1, by rw [h2]⟩
  simp only [RedactMessage]
  by_cases hm0 : msg = []
  · rw [if_pos hm0, hm0]
    intro h
    simp at h
  · rw [if_neg hm0]
    simp only [ne_eq, reduceCtorEq, not_false_eq_true, if_true]
    have hout1 : ¬ ('/' :: w1) <:+: replaceAllGo msg ('/' :: w1) (str "~") :=
      replace_home_no_home _ h1 h3 msg.length msg (Nat.le_refl _)
    by_cases hc : containsGo (replaceAllGo msg ('/' :: w1) (str "~")) (str "/.ssh/") = true
    · rw [if_pos hc]
      exact replace_ssh_no_home w1 h4 _ _ (Nat.le_refl _) hout1
    · rw [if_neg hc]
      exact hout1

theorem UserMessage_no_home (home : GoStr) (e : GoErr) (h1 : home ≠ [])
    (h2 : home.head? = some '/') (h3 : '~' ∉ home) (h4 : '[' ∉ home) :
    ¬ home <:+: UserMessage (some home) (some e) true := by
  cases e with
  | classified us dd =>
    simp only [UserMessage, if_pos rfl]
    exact RedactMessage_no_home home _ h1 h2 h3 h4
  | plain m =>
    simp only [UserMessage, errString, if_pos rfl]
    exact RedactMessage_no_home home _ h1 h2 h3 h4

theorem startPhase1_redact (env : Env) (m : Manager) (host : HostEntry)
    (fwd : ForwardSpec) (now : Nat) :
    (startPhase1 env m host fwd now).1.redactErrors = m.redactErrors := by
  simp only [startPhase1, startProceed]
  rcases startValidateErr env m fwd with _ | e
  · rcases findRt m.runtime (RuntimeID host.Alias fwd) with _ | rt
    · rfl
    · by_cases hup : rt.State = .up
      · simp [hup]
      · simp [hup, startProceed]
  · rfl

theorem C9_counterexample_home_reintroduced :
    RedactMessage (some (str "/h/~y")) (str "/h//h/~yy") = str "/h/~y" ∧
    NewManager.redactErrors = true ∧
    findRt (Start envC9 NewManager hostLoop fwdLoop 1 (.error eC9) 2).mgr.runtime
      rtC9.ID = some rtC9 ∧
    containsGo rtC9.LastError (str "/h/~y") = true := by
  refine ⟨by decide, rfl, ?_, by decide⟩
  decide

/-- C9 (amended): redaction removes the home path whenever the home string is
a nonempty absolute path containing neither a tilde nor an opening bracket. -/
theorem C9_redaction_no_home (home : GoStr) (h1 : home ≠ [])
    (h2 : home.head? = some '/') (h3 : '~' ∉ home) (h4 : '[' ∉ home) :
    (∀ msg : GoStr, ¬ home <:+: RedactMessage (some home) msg) ∧
    (∀ msg : GoStr, containsGo (replaceAllGo msg home (str "~")) (str "/.ssh/") = true →
      containsGo (RedactMessage (some home) msg) (str "/.ssh/[redacted]/") = true) ∧
    (∀ (env : Env) (m : Manager) (host : HostEntry) (fwd : ForwardSpec)
        (now now2 : Nat) (e : GoErr) (m1 : Manager) (id : GoStr) (rt : TunnelRuntime),
      env.home = some home → m.redactErrors = true →
      startPhase1 env m host fwd now = (m1, .proceed id rt) →
      ∃ rt2, findRt (Start env m host fwd now (.error e) now2).mgr.runtime id = some rt2 ∧
        rt2.State = .error ∧
        rt2.LastError = UserMessage (some home) (some e) true ∧
        ¬ home <:+: rt2.LastError) := by
  refine ⟨fun msg => RedactMessage_no_home home msg h1 h2 h3 h4, ?_, ?_⟩
  · intro msg hc
    by_cases hm0 : msg = []
    · subst hm0
      have hra : replaceAllGo [] home (str "~") = [] := rfl
      rw [hra] at hc
      exact absurd hc (by decide)
    · simp only [RedactMessage, if_neg hm0]
      rw [if_pos h1, if_pos hc]
      simp only [containsGo, replaceAllGo] at hc ⊢
      exact decide_eq_true (replace_ssh_hit _ _ (Nat.le_refl _) (of_decide_eq_true hc))
  · intro env m host fwd now now2 e m1 id rt henv hred hp
    have hm1 : m1.redactErrors = true := by
      have hpr := startPhase1_redact env m host fwd now
      rw [hp] at hpr
      rw [hpr, hred]
    simp only [Start, hp, startFinishErr]
    refine ⟨_, findRt_setRt _ _ _, rfl, ?_, ?_⟩
    · simp only [henv, hm1]
    · simp only [henv, hm1]
      exact UserMessage_no_home home e h1 h2 h3 h4

theorem C9_redaction_no_home_witness :
    (str "/home/u" ≠ [] ∧ (str "/home/u").head? = some '/' ∧
     '~' ∉ str "/home/u" ∧ '[' ∉ str "/home/u") ∧
    RedactMessage (some (str "/home/u")) (str "/home/u/.ssh/id_rsa: permission denied") =
      str "~/.ssh/[redacted]/id_rsa: permission denied" ∧
    ¬ (str "/home/u") <:+: RedactMessage (some (str "/home/u"))
        (str "/home/u/.ssh/id_rsa: permission denied") :=
  ⟨⟨by decide, by decide, by decide, by decide⟩, by decide,
   (C9_redaction_no_home (str "/home/u") (by decide) (by decide) (by decide)
     (by decide)).1 (str "/home/u/.ssh/id_rsa: permission denied")⟩

end SSHM
